import Mathlib

/-!
Verification of the matchmaking/session-relay server and the deterministic
maze generator of the `maze` repository.

Part 1 (`MazeGen`) embeds `src/src/utils/mazeGenerator.ts`: the grid of cells
with four wall flags, the seeded random chooser, `getUnvisitedNeighbors`,
`removeWallBetween` and the randomized depth-first backtracking loop of
`generateMaze`.

Part 2 (`Server`) embeds `src/server/index.js`: the per-game-type matchmaking
queues, the `activeGames` registry, socket rooms, and the event handlers
(`find-match`, `player-move`, `player-finished`, the `pong-*` and `snake-*`
handlers, and `disconnect`).
-/

namespace MazeGen

/-- The four wall flags of one maze cell (`Cell.walls` in the source). -/
structure Walls where
  top : Bool
  right : Bool
  bottom : Bool
  left : Bool
deriving DecidableEq, Repr

/-- A cell position `(row, col)`. -/
abbrev Pos := Nat × Nat

/-- All cells start with all four walls present (`walls: { top: true, right: true,
bottom: true, left: true }` in the grid-initialization loop). -/
def initWalls : Pos → Walls := fun _ => ⟨true, true, true, true⟩

/-- The mutable state of `generateMaze`: the wall flags of every cell, the set of
visited cells (the `visited` flags), the DFS stack (head = top of stack), the
internal counter of the random source (`this.seed`, incremented by each call to
`random()`), and a ghost counter of `removeWallBetween` invocations. -/
structure GenState where
  walls : Pos → Walls
  visited : Finset Pos
  stack : List Pos
  rngState : Nat
  removals : Nat

/-- `getUnvisitedNeighbors(maze, cell, rows, cols)`: the in-bounds orthogonal
neighbors of `cell` that are not yet visited, in source order
top, right, bottom, left. -/
def getUnvisitedNeighbors (visited : Finset Pos) (rows cols : Nat) (cell : Pos) :
    List Pos :=
  (if 0 < cell.1 ∧ (cell.1 - 1, cell.2) ∉ visited then [(cell.1 - 1, cell.2)] else [])
    ++ (if cell.2 < cols - 1 ∧ (cell.1, cell.2 + 1) ∉ visited then [(cell.1, cell.2 + 1)] else [])
    ++ (if cell.1 < rows - 1 ∧ (cell.1 + 1, cell.2) ∉ visited then [(cell.1 + 1, cell.2)] else [])
    ++ (if 0 < cell.2 ∧ (cell.1, cell.2 - 1) ∉ visited then [(cell.1, cell.2 - 1)] else [])

/-- `current.walls.top = false`. -/
def clearTop (w : Walls) : Walls := { w with top := false }

/-- `current.walls.bottom = false`. -/
def clearBottom (w : Walls) : Walls := { w with bottom := false }

/-- `current.walls.left = false`. -/
def clearLeft (w : Walls) : Walls := { w with left := false }

/-- `current.walls.right = false`. -/
def clearRight (w : Walls) : Walls := { w with right := false }

/-- Pointwise update of the wall grid at one cell. -/
def setWall (w : Pos → Walls) (p : Pos) (f : Walls → Walls) : Pos → Walls :=
  fun q => if q = p then f (w p) else w q

/-- `removeWallBetween(current, next)`: branch on the row/column delta and clear
the matching pair of wall flags. -/
def removeWallBetween (w : Pos → Walls) (current next : Pos) : Pos → Walls :=
  let rowDiff : Int := (current.1 : Int) - (next.1 : Int)
  let colDiff : Int := (current.2 : Int) - (next.2 : Int)
  if rowDiff = 1 then
    setWall (setWall w current clearTop) next clearBottom
  else if rowDiff = -1 then
    setWall (setWall w current clearBottom) next clearTop
  else if colDiff = 1 then
    setWall (setWall w current clearLeft) next clearRight
  else if colDiff = -1 then
    setWall (setWall w current clearRight) next clearLeft
  else
    w

/-- One iteration of the `while (stack.length > 0)` body.  `pickF` is the random
index chooser: `pickF state n` models `Math.floor(random() * n)` where `random()`
is the value drawn at internal counter `state`; the counter advances by one per
draw, mirroring `this.seed++`.  Out-of-range indices never occur for the real
chooser (its value lies in `[0, n)`); `List.getD` totalizes the array access. -/
def genStep (rows cols : Nat) (pickF : Nat → Nat → Nat) (s : GenState) : GenState :=
  match s.stack with
  | [] => s
  | current :: rest =>
    let neighbors := getUnvisitedNeighbors s.visited rows cols current
    match neighbors with
    | [] => { s with stack := rest }
    | _ :: _ =>
      let randomIndex := pickF s.rngState neighbors.length
      let next := neighbors.getD randomIndex (0, 0)
      { walls := removeWallBetween s.walls current next
        visited := insert next s.visited
        stack := next :: s.stack
        rngState := s.rngState + 1
        removals := s.removals + 1 }

/-- The backtracking loop, fuel-indexed.  The loop exits as soon as the stack is
empty; the fuel bound is shown sufficient below (`genLoop_init`). -/
def genLoop (rows cols : Nat) (pickF : Nat → Nat → Nat) : Nat → GenState → GenState
  | 0, s => s
  | fuel + 1, s =>
    match s.stack with
    | [] => s
    | _ :: _ => genLoop rows cols pickF fuel (genStep rows cols pickF s)

/-- The state right after grid initialization: cell (0,0) marked visited and
pushed on the stack; `rng0` is the initial internal counter of the random
source (the seed, for a seeded run). -/
def initState (rng0 : Nat) : GenState :=
  { walls := initWalls
    visited := {((0 : Nat), (0 : Nat))}
    stack := [(0, 0)]
    rngState := rng0
    removals := 0 }

/-- `const rng = seed !== undefined ? new SeededRandom(seed) : null`: selects the
chooser actually used by the run.  `sinPick s n` abstracts the fixed mathematical
function `Math.floor((Math.sin(s) * 10000 − ⌊Math.sin(s) * 10000⌋) * n)` used by
`SeededRandom` (its exact values are irrelevant to every property below);
`ambient` abstracts the process-wide `Math.random()` entropy stream consumed
when no seed is supplied, indexed by draw count. -/
def pickOf (seed : Option Nat) (sinPick ambient : Nat → Nat → Nat) :
    Nat → Nat → Nat :=
  match seed with
  | some _ => sinPick
  | none => ambient

/-- Initial internal counter of the random source: the seed for a seeded run
(`new SeededRandom(seed)`), draw count 0 for the ambient stream. -/
def rng0Of (seed : Option Nat) : Nat :=
  match seed with
  | some s => s
  | none => 0

/-- `generateMaze(rows, cols, seed?)`: initialize the grid, then run the
randomized depth-first backtracking loop. -/
def generateMaze (rows cols : Nat) (seed : Option Nat)
    (sinPick ambient : Nat → Nat → Nat) : GenState :=
  genLoop rows cols (pickOf seed sinPick ambient) (2 * rows * cols)
    (initState (rng0Of seed))

/-- The set of all grid cells. -/
def gridSet (rows cols : Nat) : Finset Pos := Finset.range rows ×ˢ Finset.range cols

/-- Orthogonal grid adjacency of two positions. -/
def gridAdj (p q : Pos) : Prop :=
  (p.1 = q.1 ∧ (p.2 + 1 = q.2 ∨ q.2 + 1 = p.2)) ∨
    (p.2 = q.2 ∧ (p.1 + 1 = q.1 ∨ q.1 + 1 = p.1))

instance (p q : Pos) : Decidable (gridAdj p q) := by unfold gridAdj; infer_instance

/-- Two cells are joined by a cleared wall pair (a passage). -/
def passOpen (w : Pos → Walls) (p q : Pos) : Prop :=
  (p.1 = q.1 ∧ p.2 + 1 = q.2 ∧ (w p).right = false ∧ (w q).left = false) ∨
    (p.1 = q.1 ∧ q.2 + 1 = p.2 ∧ (w p).left = false ∧ (w q).right = false) ∨
    (p.2 = q.2 ∧ p.1 + 1 = q.1 ∧ (w p).bottom = false ∧ (w q).top = false) ∨
    (p.2 = q.2 ∧ q.1 + 1 = p.1 ∧ (w p).top = false ∧ (w q).bottom = false)

/-- Reachability by moving only through cleared wall pairs. -/
def PassReach (w : Pos → Walls) (p q : Pos) : Prop :=
  Relation.ReflTransGen (passOpen w) p q

/-- Positions carrying a cleared horizontal wall pair to their right neighbor
(each such position is one removed interior wall pair). -/
def rightEdges (rows cols : Nat) (w : Pos → Walls) : Finset Pos :=
  (gridSet rows cols).filter
    (fun p => p.2 + 1 < cols ∧ (w p).right = false ∧ (w (p.1, p.2 + 1)).left = false)

/-- Positions carrying a cleared vertical wall pair to the cell below. -/
def downEdges (rows cols : Nat) (w : Pos → Walls) : Finset Pos :=
  (gridSet rows cols).filter
    (fun p => p.1 + 1 < rows ∧ (w p).bottom = false ∧ (w (p.1 + 1, p.2)).top = false)

/-- Number of cleared interior wall pairs (edges of the passage graph). -/
def edgeCount (rows cols : Nat) (w : Pos → Walls) : Nat :=
  (rightEdges rows cols w).card + (downEdges rows cols w).card

theorem mem_gridSet {rows cols : Nat} {p : Pos} :
    p ∈ gridSet rows cols ↔ p.1 < rows ∧ p.2 < cols := by
  rcases p with ⟨a, b⟩
  simp [gridSet, Finset.mem_product]

theorem pair_mem_gridSet {rows cols x y : Nat} :
    ((x, y) : Pos) ∈ gridSet rows cols ↔ x < rows ∧ y < cols := mem_gridSet

theorem gridAdj_pair {a b c d : Nat} :
    gridAdj (a, b) (c, d) ↔
      ((a = c ∧ (b + 1 = d ∨ d + 1 = b)) ∨ (b = d ∧ (a + 1 = c ∨ c + 1 = a))) :=
  Iff.rfl

theorem mem_neighbors {visited : Finset Pos} {rows cols : Nat} {p q : Pos}
    (hp : p ∈ gridSet rows cols)
    (hq : q ∈ getUnvisitedNeighbors visited rows cols p) :
    q ∈ gridSet rows cols ∧ gridAdj p q ∧ q ∉ visited := by
  rcases p with ⟨a, b⟩
  rw [mem_gridSet] at hp
  simp only at hp
  unfold getUnvisitedNeighbors at hq
  simp only [List.mem_append] at hq
  rcases hq with ((h | h) | h) | h
  · rcases Decidable.em (0 < a ∧ (a - 1, b) ∉ visited) with hc | hc
    · rw [if_pos hc] at h
      simp only [List.mem_singleton] at h
      subst h
      exact ⟨pair_mem_gridSet.mpr ⟨by omega, by omega⟩,
        gridAdj_pair.mpr (by omega), hc.2⟩
    · rw [if_neg hc] at h
      simp at h
  · rcases Decidable.em (b < cols - 1 ∧ (a, b + 1) ∉ visited) with hc | hc
    · rw [if_pos hc] at h
      simp only [List.mem_singleton] at h
      subst h
      exact ⟨pair_mem_gridSet.mpr ⟨by omega, by omega⟩,
        gridAdj_pair.mpr (by omega), hc.2⟩
    · rw [if_neg hc] at h
      simp at h
  · rcases Decidable.em (a < rows - 1 ∧ (a + 1, b) ∉ visited) with hc | hc
    · rw [if_pos hc] at h
      simp only [List.mem_singleton] at h
      subst h
      exact ⟨pair_mem_gridSet.mpr ⟨by omega, by omega⟩,
        gridAdj_pair.mpr (by omega), hc.2⟩
    · rw [if_neg hc] at h
      simp at h
  · rcases Decidable.em (0 < b ∧ (a, b - 1) ∉ visited) with hc | hc
    · rw [if_pos hc] at h
      simp only [List.mem_singleton] at h
      subst h
      exact ⟨pair_mem_gridSet.mpr ⟨by omega, by omega⟩,
        gridAdj_pair.mpr (by omega), hc.2⟩
    · rw [if_neg hc] at h
      simp at h

theorem if_singleton_eq_nil {c : Prop} [Decidable c] {x : Pos}
    (h : (if c then [x] else []) = []) : ¬c := by
  intro hc
  simp [hc] at h

theorem neighbors_eq_nil {visited : Finset Pos} {rows cols : Nat} {p : Pos}
    (hp : p ∈ gridSet rows cols)
    (h : getUnvisitedNeighbors visited rows cols p = [])
    {q : Pos} (hq : q ∈ gridSet rows cols) (hadj : gridAdj p q) :
    q ∈ visited := by
  rcases p with ⟨a, b⟩
  rcases q with ⟨c, d⟩
  rw [mem_gridSet] at hp hq
  unfold getUnvisitedNeighbors at h
  rw [List.append_eq_nil, List.append_eq_nil, List.append_eq_nil] at h
  obtain ⟨⟨⟨h1, h2⟩, h3⟩, h4⟩ := h
  have n1 := if_singleton_eq_nil h1
  have n2 := if_singleton_eq_nil h2
  have n3 := if_singleton_eq_nil h3
  have n4 := if_singleton_eq_nil h4
  simp only [not_and, not_not] at n1 n2 n3 n4
  rcases hadj with ⟨h5, h6 | h6⟩ | ⟨h5, h6 | h6⟩
  · have : ((a, b + 1) : Pos) = (c, d) := by
      simp only [Prod.mk.injEq] at h5 h6 ⊢
      omega
    rw [← this]
    exact n2 (by simp only at h5 h6 hq ⊢; omega)
  · have : ((a, b - 1) : Pos) = (c, d) := by
      simp only [Prod.mk.injEq] at h5 h6 ⊢
      omega
    rw [← this]
    exact n4 (by simp only at h5 h6 ⊢; omega)
  · have : ((a + 1, b) : Pos) = (c, d) := by
      simp only [Prod.mk.injEq] at h5 h6 ⊢
      omega
    rw [← this]
    exact n3 (by simp only at h5 h6 hq ⊢; omega)
  · have : ((a - 1, b) : Pos) = (c, d) := by
      simp only [Prod.mk.injEq] at h5 h6 ⊢
      omega
    rw [← this]
    exact n1 (by simp only at h5 h6 ⊢; omega)

theorem getD_mem {l : List Pos} {i : Nat} (h : i < l.length) (d : Pos) :
    l.getD i d ∈ l := by
  rw [List.getD_eq_getElem l d h]
  exact List.getElem_mem h

/-- Pointwise "walls only get cleared" order on wall grids. -/
def wallLe (w w' : Pos → Walls) : Prop :=
  ∀ p, ((w p).top = false → (w' p).top = false) ∧
    ((w p).right = false → (w' p).right = false) ∧
    ((w p).bottom = false → (w' p).bottom = false) ∧
    ((w p).left = false → (w' p).left = false)

theorem setWall_self {w : Pos → Walls} {p : Pos} {f : Walls → Walls} :
    setWall w p f p = f (w p) := by simp [setWall]

theorem setWall_other {w : Pos → Walls} {p q : Pos} {f : Walls → Walls}
    (h : q ≠ p) : setWall w p f q = w q := by simp [setWall, h]

/-- A cell update that only ever clears flags. -/
def flagOk (f : Walls → Walls) : Prop :=
  ∀ x, ((f x).top = x.top ∨ (f x).top = false) ∧
    ((f x).right = x.right ∨ (f x).right = false) ∧
    ((f x).bottom = x.bottom ∨ (f x).bottom = false) ∧
    ((f x).left = x.left ∨ (f x).left = false)

theorem flagOk_clearTop : flagOk clearTop :=
  fun _ => ⟨Or.inr rfl, Or.inl rfl, Or.inl rfl, Or.inl rfl⟩

theorem flagOk_clearRight : flagOk clearRight :=
  fun _ => ⟨Or.inl rfl, Or.inr rfl, Or.inl rfl, Or.inl rfl⟩

theorem flagOk_clearBottom : flagOk clearBottom :=
  fun _ => ⟨Or.inl rfl, Or.inl rfl, Or.inr rfl, Or.inl rfl⟩

theorem flagOk_clearLeft : flagOk clearLeft :=
  fun _ => ⟨Or.inl rfl, Or.inl rfl, Or.inl rfl, Or.inr rfl⟩

theorem wallLe_refl (w : Pos → Walls) : wallLe w w :=
  fun _ => ⟨id, id, id, id⟩

theorem wallLe_trans {w1 w2 w3 : Pos → Walls} (h1 : wallLe w1 w2)
    (h2 : wallLe w2 w3) : wallLe w1 w3 := by
  intro p
  obtain ⟨a1, a2, a3, a4⟩ := h1 p
  obtain ⟨b1, b2, b3, b4⟩ := h2 p
  exact ⟨fun h => b1 (a1 h), fun h => b2 (a2 h), fun h => b3 (a3 h), fun h => b4 (a4 h)⟩

theorem setWall_wallLe {w : Pos → Walls} {c : Pos} {f : Walls → Walls}
    (hf : flagOk f) : wallLe w (setWall w c f) := by
  intro p
  by_cases hp : p = c
  · subst hp
    rw [setWall_self]
    obtain ⟨h1, h2, h3, h4⟩ := hf (w p)
    refine ⟨?_, ?_, ?_, ?_⟩
    · rcases h1 with e | e
      · intro h; rw [e]; exact h
      · exact fun _ => e
    · rcases h2 with e | e
      · intro h; rw [e]; exact h
      · exact fun _ => e
    · rcases h3 with e | e
      · intro h; rw [e]; exact h
      · exact fun _ => e
    · rcases h4 with e | e
      · intro h; rw [e]; exact h
      · exact fun _ => e
  · rw [setWall_other hp]
    exact ⟨id, id, id, id⟩

theorem removeWall_wallLe (w : Pos → Walls) (a b : Pos) :
    wallLe w (removeWallBetween w a b) := by
  simp only [removeWallBetween]
  split_ifs
  · exact wallLe_trans (setWall_wallLe flagOk_clearTop) (setWall_wallLe flagOk_clearBottom)
  · exact wallLe_trans (setWall_wallLe flagOk_clearBottom) (setWall_wallLe flagOk_clearTop)
  · exact wallLe_trans (setWall_wallLe flagOk_clearLeft) (setWall_wallLe flagOk_clearRight)
  · exact wallLe_trans (setWall_wallLe flagOk_clearRight) (setWall_wallLe flagOk_clearLeft)
  · exact wallLe_refl w

theorem passOpen_mono {w w' : Pos → Walls} (h : wallLe w w') {p q : Pos}
    (hpq : passOpen w p q) : passOpen w' p q := by
  rcases hpq with ⟨h1, h2, h3, h4⟩ | ⟨h1, h2, h3, h4⟩ | ⟨h1, h2, h3, h4⟩ | ⟨h1, h2, h3, h4⟩
  · exact Or.inl ⟨h1, h2, (h p).2.1 h3, (h q).2.2.2 h4⟩
  · exact Or.inr (Or.inl ⟨h1, h2, (h p).2.2.2 h3, (h q).2.1 h4⟩)
  · exact Or.inr (Or.inr (Or.inl ⟨h1, h2, (h p).2.2.1 h3, (h q).1 h4⟩))
  · exact Or.inr (Or.inr (Or.inr ⟨h1, h2, (h p).1 h3, (h q).2.2.1 h4⟩))

theorem passReach_mono {w w' : Pos → Walls} (h : wallLe w w') {p q : Pos}
    (hpq : PassReach w p q) : PassReach w' p q :=
  Relation.ReflTransGen.mono (fun _ _ hr => passOpen_mono h hr) hpq

theorem removeWall_eq_of_ne {w : Pos → Walls} {cur next p : Pos}
    (h1 : p ≠ cur) (h2 : p ≠ next) :
    removeWallBetween w cur next p = w p := by
  simp only [removeWallBetween]
  split_ifs <;> first
    | rfl
    | rw [setWall_other h2, setWall_other h1]

/-- `removeWallBetween` with the right neighbor: `colDiff = -1`. -/
theorem removeWall_right_eq {w : Pos → Walls} {a b : Nat} :
    removeWallBetween w (a, b) (a, b + 1)
      = setWall (setWall w (a, b) clearRight) (a, b + 1) clearLeft := by
  have e1 : ¬((a : Int) - (a : Int) = 1) := by omega
  have e2 : ¬((a : Int) - (a : Int) = -1) := by omega
  have e3 : ¬((b : Int) - ((b + 1 : Nat) : Int) = 1) := by push_cast; omega
  have e4 : (b : Int) - ((b + 1 : Nat) : Int) = -1 := by push_cast; omega
  simp only [removeWallBetween]
  rw [if_neg e1, if_neg e2, if_neg e3, if_pos e4]

/-- `removeWallBetween` with the left neighbor: `colDiff = 1`. -/
theorem removeWall_left_eq {w : Pos → Walls} {a b : Nat} :
    removeWallBetween w (a, b + 1) (a, b)
      = setWall (setWall w (a, b + 1) clearLeft) (a, b) clearRight := by
  have e1 : ¬((a : Int) - (a : Int) = 1) := by omega
  have e2 : ¬((a : Int) - (a : Int) = -1) := by omega
  have e3 : ((b + 1 : Nat) : Int) - (b : Int) = 1 := by push_cast; omega
  simp only [removeWallBetween]
  rw [if_neg e1, if_neg e2, if_pos e3]

/-- `removeWallBetween` with the neighbor below: `rowDiff = -1`. -/
theorem removeWall_down_eq {w : Pos → Walls} {a b : Nat} :
    removeWallBetween w (a, b) (a + 1, b)
      = setWall (setWall w (a, b) clearBottom) (a + 1, b) clearTop := by
  have e1 : ¬((a : Int) - ((a + 1 : Nat) : Int) = 1) := by push_cast; omega
  have e2 : (a : Int) - ((a + 1 : Nat) : Int) = -1 := by push_cast; omega
  simp only [removeWallBetween]
  rw [if_neg e1, if_pos e2]

/-- `removeWallBetween` with the neighbor above: `rowDiff = 1`. -/
theorem removeWall_up_eq {w : Pos → Walls} {a b : Nat} :
    removeWallBetween w (a + 1, b) (a, b)
      = setWall (setWall w (a + 1, b) clearTop) (a, b) clearBottom := by
  have e1 : ((a + 1 : Nat) : Int) - (a : Int) = 1 := by push_cast; omega
  simp only [removeWallBetween]
  rw [if_pos e1]

theorem pair_ne_right {a b : Nat} : ((a, b) : Pos) ≠ (a, b + 1) := by simp

theorem pair_ne_right' {a b : Nat} : ((a, b + 1) : Pos) ≠ (a, b) := by simp

theorem pair_ne_down {a b : Nat} : ((a, b) : Pos) ≠ (a + 1, b) := by simp

theorem pair_ne_down' {a b : Nat} : ((a + 1, b) : Pos) ≠ (a, b) := by simp

theorem clearTop_right : ∀ x, (clearTop x).right = x.right := fun _ => rfl

theorem clearTop_bottom : ∀ x, (clearTop x).bottom = x.bottom := fun _ => rfl

theorem clearTop_left : ∀ x, (clearTop x).left = x.left := fun _ => rfl

theorem clearRight_top : ∀ x, (clearRight x).top = x.top := fun _ => rfl

theorem clearRight_bottom : ∀ x, (clearRight x).bottom = x.bottom := fun _ => rfl

theorem clearRight_left : ∀ x, (clearRight x).left = x.left := fun _ => rfl

theorem clearBottom_top : ∀ x, (clearBottom x).top = x.top := fun _ => rfl

theorem clearBottom_right : ∀ x, (clearBottom x).right = x.right := fun _ => rfl

theorem clearBottom_left : ∀ x, (clearBottom x).left = x.left := fun _ => rfl

theorem clearLeft_top : ∀ x, (clearLeft x).top = x.top := fun _ => rfl

theorem clearLeft_right : ∀ x, (clearLeft x).right = x.right := fun _ => rfl

theorem clearLeft_bottom : ∀ x, (clearLeft x).bottom = x.bottom := fun _ => rfl

theorem setWall_top_eq {w : Pos → Walls} {c p : Pos} {f : Walls → Walls}
    (hf : ∀ x, (f x).top = x.top) : (setWall w c f p).top = (w p).top := by
  by_cases h : p = c
  · subst h; rw [setWall_self, hf]
  · rw [setWall_other h]

theorem setWall_right_eq {w : Pos → Walls} {c p : Pos} {f : Walls → Walls}
    (hf : ∀ x, (f x).right = x.right) : (setWall w c f p).right = (w p).right := by
  by_cases h : p = c
  · subst h; rw [setWall_self, hf]
  · rw [setWall_other h]

theorem setWall_bottom_eq {w : Pos → Walls} {c p : Pos} {f : Walls → Walls}
    (hf : ∀ x, (f x).bottom = x.bottom) : (setWall w c f p).bottom = (w p).bottom := by
  by_cases h : p = c
  · subst h; rw [setWall_self, hf]
  · rw [setWall_other h]

theorem setWall_left_eq {w : Pos → Walls} {c p : Pos} {f : Walls → Walls}
    (hf : ∀ x, (f x).left = x.left) : (setWall w c f p).left = (w p).left := by
  by_cases h : p = c
  · subst h; rw [setWall_self, hf]
  · rw [setWall_other h]

/-- Clearing one horizontal wall pair adds exactly the edge at `(a, b)` to the
passage-edge count. -/
theorem edgeCount_insert_right {rows cols : Nat} {w w' : Pos → Walls} {a b : Nat}
    (hcur : ((a, b) : Pos) ∈ gridSet rows cols)
    (hnext : ((a, b + 1) : Pos) ∈ gridSet rows cols)
    (hold : (w (a, b)).right = true ∨ (w (a, b + 1)).left = true)
    (topEq : ∀ p, (w' p).top = (w p).top)
    (botEq : ∀ p, (w' p).bottom = (w p).bottom)
    (rightEq : ∀ p, p ≠ ((a, b) : Pos) → (w' p).right = (w p).right)
    (leftEq : ∀ p, p ≠ ((a, b + 1) : Pos) → (w' p).left = (w p).left)
    (rightAt : (w' (a, b)).right = false)
    (leftAt : (w' (a, b + 1)).left = false) :
    edgeCount rows cols w' = edgeCount rows cols w + 1 := by
  have hre : rightEdges rows cols w' = insert ((a, b) : Pos) (rightEdges rows cols w) := by
    apply Finset.ext
    rintro ⟨x, y⟩
    simp only [rightEdges, Finset.mem_filter, Finset.mem_insert]
    constructor
    · rintro ⟨hg, hb, hr, hl⟩
      by_cases hxy : ((x, y) : Pos) = (a, b)
      · exact Or.inl hxy
      · have hxy2 : ((x, y + 1) : Pos) ≠ (a, b + 1) := by
          intro hc
          apply hxy
          rw [Prod.mk.injEq] at hc ⊢
          omega
        exact Or.inr ⟨hg, hb, by rw [← rightEq _ hxy]; exact hr,
          by rw [← leftEq _ hxy2]; exact hl⟩
    · rintro (hxy | ⟨hg, hb, hr, hl⟩)
      · rw [Prod.mk.injEq] at hxy
        obtain ⟨rfl, rfl⟩ := hxy
        exact ⟨hcur, (pair_mem_gridSet.mp hnext).2, rightAt, leftAt⟩
      · refine ⟨hg, hb, ?_, ?_⟩
        · by_cases hxy : ((x, y) : Pos) = (a, b)
          · rw [hxy]; exact rightAt
          · rw [rightEq _ hxy]; exact hr
        · by_cases hxy2 : ((x, y + 1) : Pos) = (a, b + 1)
          · rw [hxy2]; exact leftAt
          · rw [leftEq _ hxy2]; exact hl
  have hnotmem : ((a, b) : Pos) ∉ rightEdges rows cols w := by
    simp only [rightEdges, Finset.mem_filter]
    rintro ⟨-, -, hr, hl⟩
    rcases hold with h | h
    · rw [hr] at h; cases h
    · rw [hl] at h; cases h
  have hde : downEdges rows cols w' = downEdges rows cols w := by
    apply Finset.filter_congr
    rintro ⟨x, y⟩ -
    rw [botEq, topEq]
  rw [edgeCount, edgeCount, hre, hde, Finset.card_insert_of_not_mem hnotmem]
  omega

/-- Clearing one vertical wall pair adds exactly the edge at `(a, b)` to the
passage-edge count. -/
theorem edgeCount_insert_down {rows cols : Nat} {w w' : Pos → Walls} {a b : Nat}
    (hcur : ((a, b) : Pos) ∈ gridSet rows cols)
    (hnext : ((a + 1, b) : Pos) ∈ gridSet rows cols)
    (hold : (w (a, b)).bottom = true ∨ (w (a + 1, b)).top = true)
    (rightEq : ∀ p, (w' p).right = (w p).right)
    (leftEq : ∀ p, (w' p).left = (w p).left)
    (botEq : ∀ p, p ≠ ((a, b) : Pos) → (w' p).bottom = (w p).bottom)
    (topEq : ∀ p, p ≠ ((a + 1, b) : Pos) → (w' p).top = (w p).top)
    (botAt : (w' (a, b)).bottom = false)
    (topAt : (w' (a + 1, b)).top = false) :
    edgeCount rows cols w' = edgeCount rows cols w + 1 := by
  have hde : downEdges rows cols w' = insert ((a, b) : Pos) (downEdges rows cols w) := by
    apply Finset.ext
    rintro ⟨x, y⟩
    simp only [downEdges, Finset.mem_filter, Finset.mem_insert]
    constructor
    · rintro ⟨hg, hb, hr, hl⟩
      by_cases hxy : ((x, y) : Pos) = (a, b)
      · exact Or.inl hxy
      · have hxy2 : ((x + 1, y) : Pos) ≠ (a + 1, b) := by
          intro hc
          apply hxy
          rw [Prod.mk.injEq] at hc ⊢
          omega
        exact Or.inr ⟨hg, hb, by rw [← botEq _ hxy]; exact hr,
          by rw [← topEq _ hxy2]; exact hl⟩
    · rintro (hxy | ⟨hg, hb, hr, hl⟩)
      · rw [Prod.mk.injEq] at hxy
        obtain ⟨rfl, rfl⟩ := hxy
        exact ⟨hcur, (pair_mem_gridSet.mp hnext).1, botAt, topAt⟩
      · refine ⟨hg, hb, ?_, ?_⟩
        · by_cases hxy : ((x, y) : Pos) = (a, b)
          · rw [hxy]; exact botAt
          · rw [botEq _ hxy]; exact hr
        · by_cases hxy2 : ((x + 1, y) : Pos) = (a + 1, b)
          · rw [hxy2]; exact topAt
          · rw [topEq _ hxy2]; exact hl
  have hnotmem : ((a, b) : Pos) ∉ downEdges rows cols w := by
    simp only [downEdges, Finset.mem_filter]
    rintro ⟨-, -, hr, hl⟩
    rcases hold with h | h
    · rw [hr] at h; cases h
    · rw [hl] at h; cases h
  have hre : rightEdges rows cols w' = rightEdges rows cols w := by
    apply Finset.filter_congr
    rintro ⟨x, y⟩ -
    rw [rightEq, leftEq]
  rw [edgeCount, edgeCount, hre, hde, Finset.card_insert_of_not_mem hnotmem]
  omega

/-- Each `removeWallBetween` on a fresh (all-walls-intact) neighbor increases
the passage-edge count by exactly one. -/
theorem edgeCount_removeWall {rows cols : Nat} {w : Pos → Walls} {cur next : Pos}
    (hcur : cur ∈ gridSet rows cols) (hnext : next ∈ gridSet rows cols)
    (hadj : gridAdj cur next) (hintact : w next = initWalls next) :
    edgeCount rows cols (removeWallBetween w cur next) = edgeCount rows cols w + 1 := by
  rcases cur with ⟨a, b⟩
  rcases next with ⟨c, d⟩
  rcases gridAdj_pair.mp hadj with ⟨h1, h2 | h2⟩ | ⟨h1, h2 | h2⟩
  · -- next is the right neighbor
    subst h1
    obtain rfl : d = b + 1 := by omega
    rw [removeWall_right_eq]
    refine edgeCount_insert_right hcur hnext (Or.inr (by rw [hintact]; rfl))
      (fun p => by rw [setWall_top_eq clearLeft_top, setWall_top_eq clearRight_top])
      (fun p => by rw [setWall_bottom_eq clearLeft_bottom, setWall_bottom_eq clearRight_bottom])
      (fun p hp => by rw [setWall_right_eq clearLeft_right, setWall_other hp])
      (fun p hp => by rw [setWall_other hp, setWall_left_eq clearRight_left])
      (by rw [setWall_right_eq clearLeft_right, setWall_self]; rfl)
      (by rw [setWall_self]; rfl)
  · -- next is the left neighbor
    subst h1
    obtain rfl : b = d + 1 := by omega
    rw [removeWall_left_eq]
    refine edgeCount_insert_right hnext hcur (Or.inl (by rw [hintact]; rfl))
      (fun p => by rw [setWall_top_eq clearRight_top, setWall_top_eq clearLeft_top])
      (fun p => by rw [setWall_bottom_eq clearRight_bottom, setWall_bottom_eq clearLeft_bottom])
      (fun p hp => by rw [setWall_other hp, setWall_right_eq clearLeft_right])
      (fun p hp => by rw [setWall_left_eq clearRight_left, setWall_other hp])
      (by rw [setWall_self]; rfl)
      (by rw [setWall_other pair_ne_right', setWall_self]; rfl)
  · -- next is the cell below
    subst h1
    obtain rfl : c = a + 1 := by omega
    rw [removeWall_down_eq]
    refine edgeCount_insert_down hcur hnext (Or.inr (by rw [hintact]; rfl))
      (fun p => by rw [setWall_right_eq clearTop_right, setWall_right_eq clearBottom_right])
      (fun p => by rw [setWall_left_eq clearTop_left, setWall_left_eq clearBottom_left])
      (fun p hp => by rw [setWall_bottom_eq clearTop_bottom, setWall_other hp])
      (fun p hp => by rw [setWall_other hp, setWall_top_eq clearBottom_top])
      (by rw [setWall_bottom_eq clearTop_bottom, setWall_self]; rfl)
      (by rw [setWall_self]; rfl)
  · -- next is the cell above
    subst h1
    obtain rfl : a = c + 1 := by omega
    rw [removeWall_up_eq]
    refine edgeCount_insert_down hnext hcur (Or.inl (by rw [hintact]; rfl))
      (fun p => by rw [setWall_right_eq clearBottom_right, setWall_right_eq clearTop_right])
      (fun p => by rw [setWall_left_eq clearBottom_left, setWall_left_eq clearTop_left])
      (fun p hp => by rw [setWall_other hp, setWall_bottom_eq clearTop_bottom])
      (fun p hp => by rw [setWall_top_eq clearBottom_top, setWall_other hp])
      (by rw [setWall_self]; rfl)
      (by rw [setWall_other pair_ne_down', setWall_self]; rfl)

/-- Clearing one horizontal wall pair opens exactly the passage between
`(a, b)` and `(a, b + 1)` and no other. -/
theorem passOpen_update_iff_right (w w' : Pos → Walls) (a b : Nat)
    (topEq : ∀ p, (w' p).top = (w p).top)
    (botEq : ∀ p, (w' p).bottom = (w p).bottom)
    (rightEq : ∀ p, p ≠ ((a, b) : Pos) → (w' p).right = (w p).right)
    (leftEq : ∀ p, p ≠ ((a, b + 1) : Pos) → (w' p).left = (w p).left)
    (rightAt : (w' (a, b)).right = false)
    (leftAt : (w' (a, b + 1)).left = false) :
    ∀ p q, passOpen w' p q ↔
      (passOpen w p q ∨ (p = ((a, b) : Pos) ∧ q = ((a, b + 1) : Pos)) ∨
        (p = ((a, b + 1) : Pos) ∧ q = ((a, b) : Pos))) := by
  rintro ⟨p1, p2⟩ ⟨q1, q2⟩
  constructor
  · rintro (⟨h1, h2, h3, h4⟩ | ⟨h1, h2, h3, h4⟩ | ⟨h1, h2, h3, h4⟩ | ⟨h1, h2, h3, h4⟩) <;>
      simp only at h1 h2
    · by_cases hp : ((p1, p2) : Pos) = (a, b)
      · refine Or.inr (Or.inl ⟨hp, ?_⟩)
        rw [Prod.mk.injEq] at hp ⊢
        omega
      · have hq : ((q1, q2) : Pos) ≠ (a, b + 1) := by
          intro hqe
          apply hp
          rw [Prod.mk.injEq] at hqe ⊢
          omega
        exact Or.inl (Or.inl ⟨h1, h2, by rw [← rightEq _ hp]; exact h3,
          by rw [← leftEq _ hq]; exact h4⟩)
    · by_cases hp : ((p1, p2) : Pos) = (a, b + 1)
      · refine Or.inr (Or.inr ⟨hp, ?_⟩)
        rw [Prod.mk.injEq] at hp ⊢
        omega
      · have hq : ((q1, q2) : Pos) ≠ (a, b) := by
          intro hqe
          apply hp
          rw [Prod.mk.injEq] at hqe ⊢
          omega
        exact Or.inl (Or.inr (Or.inl ⟨h1, h2, by rw [← leftEq _ hp]; exact h3,
          by rw [← rightEq _ hq]; exact h4⟩))
    · exact Or.inl (Or.inr (Or.inr (Or.inl ⟨h1, h2, by rw [← botEq]; exact h3,
        by rw [← topEq]; exact h4⟩)))
    · exact Or.inl (Or.inr (Or.inr (Or.inr ⟨h1, h2, by rw [← topEq]; exact h3,
        by rw [← botEq]; exact h4⟩)))
  · rintro (hold | ⟨hp, hq⟩ | ⟨hp, hq⟩)
    · rcases hold with ⟨h1, h2, h3, h4⟩ | ⟨h1, h2, h3, h4⟩ | ⟨h1, h2, h3, h4⟩ | ⟨h1, h2, h3, h4⟩
      · refine Or.inl ⟨h1, h2, ?_, ?_⟩
        · by_cases hp : ((p1, p2) : Pos) = (a, b)
          · rw [hp]
            exact rightAt
          · rw [rightEq _ hp]
            exact h3
        · by_cases hq : ((q1, q2) : Pos) = (a, b + 1)
          · rw [hq]
            exact leftAt
          · rw [leftEq _ hq]
            exact h4
      · refine Or.inr (Or.inl ⟨h1, h2, ?_, ?_⟩)
        · by_cases hp : ((p1, p2) : Pos) = (a, b + 1)
          · rw [hp]
            exact leftAt
          · rw [leftEq _ hp]
            exact h3
        · by_cases hq : ((q1, q2) : Pos) = (a, b)
          · rw [hq]
            exact rightAt
          · rw [rightEq _ hq]
            exact h4
      · exact Or.inr (Or.inr (Or.inl ⟨h1, h2, by rw [botEq]; exact h3,
          by rw [topEq]; exact h4⟩))
      · exact Or.inr (Or.inr (Or.inr ⟨h1, h2, by rw [topEq]; exact h3,
          by rw [botEq]; exact h4⟩))
    · rw [hp, hq]
      exact Or.inl ⟨rfl, rfl, rightAt, leftAt⟩
    · rw [hp, hq]
      exact Or.inr (Or.inl ⟨rfl, rfl, leftAt, rightAt⟩)

/-- Clearing one vertical wall pair opens exactly the passage between
`(a, b)` and `(a + 1, b)` and no other. -/
theorem passOpen_update_iff_down (w w' : Pos → Walls) (a b : Nat)
    (rightEq : ∀ p, (w' p).right = (w p).right)
    (leftEq : ∀ p, (w' p).left = (w p).left)
    (botEq : ∀ p, p ≠ ((a, b) : Pos) → (w' p).bottom = (w p).bottom)
    (topEq : ∀ p, p ≠ ((a + 1, b) : Pos) → (w' p).top = (w p).top)
    (botAt : (w' (a, b)).bottom = false)
    (topAt : (w' (a + 1, b)).top = false) :
    ∀ p q, passOpen w' p q ↔
      (passOpen w p q ∨ (p = ((a, b) : Pos) ∧ q = ((a + 1, b) : Pos)) ∨
        (p = ((a + 1, b) : Pos) ∧ q = ((a, b) : Pos))) := by
  rintro ⟨p1, p2⟩ ⟨q1, q2⟩
  constructor
  · rintro (⟨h1, h2, h3, h4⟩ | ⟨h1, h2, h3, h4⟩ | ⟨h1, h2, h3, h4⟩ | ⟨h1, h2, h3, h4⟩) <;>
      simp only at h1 h2
    · exact Or.inl (Or.inl ⟨h1, h2, by rw [← rightEq]; exact h3,
        by rw [← leftEq]; exact h4⟩)
    · exact Or.inl (Or.inr (Or.inl ⟨h1, h2, by rw [← leftEq]; exact h3,
        by rw [← rightEq]; exact h4⟩))
    · by_cases hp : ((p1, p2) : Pos) = (a, b)
      · refine Or.inr (Or.inl ⟨hp, ?_⟩)
        rw [Prod.mk.injEq] at hp ⊢
        omega
      · have hq : ((q1, q2) : Pos) ≠ (a + 1, b) := by
          intro hqe
          apply hp
          rw [Prod.mk.injEq] at hqe ⊢
          omega
        exact Or.inl (Or.inr (Or.inr (Or.inl ⟨h1, h2, by rw [← botEq _ hp]; exact h3,
          by rw [← topEq _ hq]; exact h4⟩)))
    · by_cases hp : ((p1, p2) : Pos) = (a + 1, b)
      · refine Or.inr (Or.inr ⟨hp, ?_⟩)
        rw [Prod.mk.injEq] at hp ⊢
        omega
      · have hq : ((q1, q2) : Pos) ≠ (a, b) := by
          intro hqe
          apply hp
          rw [Prod.mk.injEq] at hqe ⊢
          omega
        exact Or.inl (Or.inr (Or.inr (Or.inr ⟨h1, h2, by rw [← topEq _ hp]; exact h3,
          by rw [← botEq _ hq]; exact h4⟩)))
  · rintro (hold | ⟨hp, hq⟩ | ⟨hp, hq⟩)
    · rcases hold with ⟨h1, h2, h3, h4⟩ | ⟨h1, h2, h3, h4⟩ | ⟨h1, h2, h3, h4⟩ | ⟨h1, h2, h3, h4⟩
      · exact Or.inl ⟨h1, h2, by rw [rightEq]; exact h3, by rw [leftEq]; exact h4⟩
      · exact Or.inr (Or.inl ⟨h1, h2, by rw [leftEq]; exact h3, by rw [rightEq]; exact h4⟩)
      · refine Or.inr (Or.inr (Or.inl ⟨h1, h2, ?_, ?_⟩))
        · by_cases hp : ((p1, p2) : Pos) = (a, b)
          · rw [hp]
            exact botAt
          · rw [botEq _ hp]
            exact h3
        · by_cases hq : ((q1, q2) : Pos) = (a + 1, b)
          · rw [hq]
            exact topAt
          · rw [topEq _ hq]
            exact h4
      · refine Or.inr (Or.inr (Or.inr ⟨h1, h2, ?_, ?_⟩))
        · by_cases hp : ((p1, p2) : Pos) = (a + 1, b)
          · rw [hp]
            exact topAt
          · rw [topEq _ hp]
            exact h3
        · by_cases hq : ((q1, q2) : Pos) = (a, b)
          · rw [hq]
            exact botAt
          · rw [botEq _ hq]
            exact h4
    · rw [hp, hq]
      exact Or.inr (Or.inr (Or.inl ⟨rfl, rfl, botAt, topAt⟩))
    · rw [hp, hq]
      exact Or.inr (Or.inr (Or.inr ⟨rfl, rfl, topAt, botAt⟩))

/-- `removeWallBetween` on two grid-adjacent cells opens exactly the passage
between them and leaves every other pair's passage status unchanged. -/
theorem passOpen_removeWall_iff {w : Pos → Walls} {cur next : Pos}
    (hadj : gridAdj cur next) :
    ∀ p q, passOpen (removeWallBetween w cur next) p q ↔
      (passOpen w p q ∨ (p = cur ∧ q = next) ∨ (p = next ∧ q = cur)) := by
  rcases cur with ⟨a, b⟩
  rcases next with ⟨c, d⟩
  rcases gridAdj_pair.mp hadj with ⟨h1, h2 | h2⟩ | ⟨h1, h2 | h2⟩
  · subst h1
    obtain rfl : d = b + 1 := by omega
    rw [removeWall_right_eq]
    exact passOpen_update_iff_right w _ a b
      (fun p => by rw [setWall_top_eq clearLeft_top, setWall_top_eq clearRight_top])
      (fun p => by rw [setWall_bottom_eq clearLeft_bottom, setWall_bottom_eq clearRight_bottom])
      (fun p hp => by rw [setWall_right_eq clearLeft_right, setWall_other hp])
      (fun p hp => by rw [setWall_other hp, setWall_left_eq clearRight_left])
      (by rw [setWall_right_eq clearLeft_right, setWall_self]; rfl)
      (by rw [setWall_self]; rfl)
  · subst h1
    obtain rfl : b = d + 1 := by omega
    rw [removeWall_left_eq]
    have hiff := passOpen_update_iff_right w
      (setWall (setWall w (a, d + 1) clearLeft) (a, d) clearRight) a d
      (fun p => by rw [setWall_top_eq clearRight_top, setWall_top_eq clearLeft_top])
      (fun p => by rw [setWall_bottom_eq clearRight_bottom, setWall_bottom_eq clearLeft_bottom])
      (fun p hp => by rw [setWall_other hp, setWall_right_eq clearLeft_right])
      (fun p hp => by rw [setWall_left_eq clearRight_left, setWall_other hp])
      (by rw [setWall_self]; rfl)
      (by rw [setWall_other pair_ne_right', setWall_self]; rfl)
    intro p q
    rw [hiff p q]
    constructor
    · rintro (h | ⟨h1, h2⟩ | ⟨h1, h2⟩)
      · exact Or.inl h
      · exact Or.inr (Or.inr ⟨h1, h2⟩)
      · exact Or.inr (Or.inl ⟨h1, h2⟩)
    · rintro (h | ⟨h1, h2⟩ | ⟨h1, h2⟩)
      · exact Or.inl h
      · exact Or.inr (Or.inr ⟨h1, h2⟩)
      · exact Or.inr (Or.inl ⟨h1, h2⟩)
  · subst h1
    obtain rfl : c = a + 1 := by omega
    rw [removeWall_down_eq]
    exact passOpen_update_iff_down w _ a b
      (fun p => by rw [setWall_right_eq clearTop_right, setWall_right_eq clearBottom_right])
      (fun p => by rw [setWall_left_eq clearTop_left, setWall_left_eq clearBottom_left])
      (fun p hp => by rw [setWall_bottom_eq clearTop_bottom, setWall_other hp])
      (fun p hp => by rw [setWall_other hp, setWall_top_eq clearBottom_top])
      (by rw [setWall_bottom_eq clearTop_bottom, setWall_self]; rfl)
      (by rw [setWall_self]; rfl)
  · subst h1
    obtain rfl : a = c + 1 := by omega
    rw [removeWall_up_eq]
    have hiff := passOpen_update_iff_down w
      (setWall (setWall w (c + 1, b) clearTop) (c, b) clearBottom) c b
      (fun p => by rw [setWall_right_eq clearBottom_right, setWall_right_eq clearTop_right])
      (fun p => by rw [setWall_left_eq clearBottom_left, setWall_left_eq clearTop_left])
      (fun p hp => by rw [setWall_other hp, setWall_bottom_eq clearTop_bottom])
      (fun p hp => by rw [setWall_top_eq clearBottom_top, setWall_other hp])
      (by rw [setWall_self]; rfl)
      (by rw [setWall_other pair_ne_down', setWall_self]; rfl)
    intro p q
    rw [hiff p q]
    constructor
    · rintro (h | ⟨h1, h2⟩ | ⟨h1, h2⟩)
      · exact Or.inl h
      · exact Or.inr (Or.inr ⟨h1, h2⟩)
      · exact Or.inr (Or.inl ⟨h1, h2⟩)
    · rintro (h | ⟨h1, h2⟩ | ⟨h1, h2⟩)
      · exact Or.inl h
      · exact Or.inr (Or.inr ⟨h1, h2⟩)
      · exact Or.inr (Or.inl ⟨h1, h2⟩)

theorem passOpen_removeWall {w : Pos → Walls} {cur next : Pos}
    (h : gridAdj cur next) :
    passOpen (removeWallBetween w cur next) cur next := by
  rcases cur with ⟨a, b⟩
  rcases next with ⟨c, d⟩
  rcases gridAdj_pair.mp h with ⟨h1, h2 | h2⟩ | ⟨h1, h2 | h2⟩
  · -- next is the right neighbor
    subst h1
    obtain rfl : d = b + 1 := by omega
    rw [removeWall_right_eq]
    refine Or.inl ⟨rfl, rfl, ?_, ?_⟩
    · rw [setWall_other pair_ne_right, setWall_self]
      rfl
    · rw [setWall_self]
      rfl
  · -- next is the left neighbor
    subst h1
    obtain rfl : b = d + 1 := by omega
    rw [removeWall_left_eq]
    refine Or.inr (Or.inl ⟨rfl, rfl, ?_, ?_⟩)
    · rw [setWall_other pair_ne_right', setWall_self]
      rfl
    · rw [setWall_self]
      rfl
  · -- next is the cell below
    subst h1
    obtain rfl : c = a + 1 := by omega
    rw [removeWall_down_eq]
    refine Or.inr (Or.inr (Or.inl ⟨rfl, rfl, ?_, ?_⟩))
    · rw [setWall_other pair_ne_down, setWall_self]
      rfl
    · rw [setWall_self]
      rfl
  · -- next is the cell above
    subst h1
    obtain rfl : a = c + 1 := by omega
    rw [removeWall_up_eq]
    refine Or.inr (Or.inr (Or.inr ⟨rfl, rfl, ?_, ?_⟩))
    · rw [setWall_other pair_ne_down', setWall_self]
      rfl
    · rw [setWall_self]
      rfl

/-- Loop measure: two fuel units per still-unvisited cell plus one per stack
entry.  Every loop iteration strictly decreases it. -/
def genMeasure (rows cols : Nat) (s : GenState) : Nat :=
  2 * ((gridSet rows cols).card - s.visited.card) + s.stack.length

/-- The passage edges of a rooted parent map: `p ~ q` exactly when one of the
two is a non-root visited cell and the other is its parent. -/
def IsParentEdge (visited : Finset Pos) (parent : Pos → Pos) (p q : Pos) : Prop :=
  (q ∈ visited ∧ q ≠ ((0, 0) : Pos) ∧ p = parent q) ∨
    (p ∈ visited ∧ p ≠ ((0, 0) : Pos) ∧ q = parent p)

/-- The inductive invariant of the backtracking loop. -/
structure Inv (rows cols : Nat) (s : GenState) : Prop where
  visitedInGrid : s.visited ⊆ gridSet rows cols
  originVisited : ((0, 0) : Pos) ∈ s.visited
  stackVisited : ∀ p ∈ s.stack, p ∈ s.visited
  closedOffStack : ∀ p ∈ s.visited, p ∉ s.stack →
    ∀ q ∈ gridSet rows cols, gridAdj p q → q ∈ s.visited
  reachableVisited : ∀ p ∈ s.visited, PassReach s.walls ((0, 0) : Pos) p
  unvisitedIntact : ∀ p, p ∉ s.visited → s.walls p = initWalls p
  removalsCard : s.removals + 1 = s.visited.card
  edgesRemovals : edgeCount rows cols s.walls = s.removals
  spanTree : ∃ parent : Pos → Pos, ∃ depth : Pos → Nat,
    (∀ p q, passOpen s.walls p q ↔ IsParentEdge s.visited parent p q) ∧
      ∀ p ∈ s.visited, p ≠ ((0, 0) : Pos) →
        parent p ∈ s.visited ∧ depth p = depth (parent p) + 1

theorem card_gridSet (rows cols : Nat) : (gridSet rows cols).card = rows * cols := by
  simp [gridSet]

theorem initState_inv {rows cols : Nat} (hr : 0 < rows) (hc : 0 < cols)
    (rng0 : Nat) : Inv rows cols (initState rng0) := by
  have hno : ∀ p q : Pos, ¬passOpen initWalls p q := by
    rintro p q (⟨-, -, h, -⟩ | ⟨-, -, h, -⟩ | ⟨-, -, h, -⟩ | ⟨-, -, h, -⟩) <;>
      simp [initWalls] at h
  refine ⟨?_, ?_, ?_, ?_, ?_, ?_, ?_, ?_, ?_⟩
  · intro p hp
    simp only [initState, Finset.mem_singleton] at hp
    subst hp
    exact pair_mem_gridSet.mpr ⟨hr, hc⟩
  · exact Finset.mem_singleton_self _
  · intro p hp
    simp only [initState, List.mem_singleton] at hp
    subst hp
    exact Finset.mem_singleton_self _
  · intro p hp hstk
    simp only [initState, Finset.mem_singleton] at hp
    subst hp
    exact absurd (by simp [initState]) hstk
  · intro p hp
    simp only [initState, Finset.mem_singleton] at hp
    subst hp
    exact Relation.ReflTransGen.refl
  · intro p _
    rfl
  · simp [initState]
  · simp [edgeCount, rightEdges, downEdges, initState, initWalls]
  · refine ⟨id, fun _ => 0, ?_, ?_⟩
    · intro p q
      constructor
      · intro h
        exact absurd h (hno p q)
      · rintro (⟨hq, hne, -⟩ | ⟨hp, hne, -⟩)
        · simp only [initState, Finset.mem_singleton] at hq
          exact absurd hq hne
        · simp only [initState, Finset.mem_singleton] at hp
          exact absurd hp hne
    · intro p hp hne
      simp only [initState, Finset.mem_singleton] at hp
      exact absurd hp hne

theorem genStep_inv {rows cols : Nat} {pickF : Nat → Nat → Nat} {s : GenState}
    (hpick : ∀ k n, 0 < n → pickF k n < n)
    (hinv : Inv rows cols s) (hne : s.stack ≠ []) :
    Inv rows cols (genStep rows cols pickF s) ∧
      genMeasure rows cols (genStep rows cols pickF s) < genMeasure rows cols s := by
  obtain ⟨current, rest, hstack⟩ : ∃ c r, s.stack = c :: r := by
    cases h : s.stack with
    | nil => exact absurd h hne
    | cons c r => exact ⟨c, r, rfl⟩
  have hcurvis : current ∈ s.visited := hinv.stackVisited current (by rw [hstack]; simp)
  have hcurgrid : current ∈ gridSet rows cols := hinv.visitedInGrid hcurvis
  cases hnb : getUnvisitedNeighbors s.visited rows cols current with
  | nil =>
    have hstep : genStep rows cols pickF s = { s with stack := rest } := by
      simp only [genStep, hstack, hnb]
    rw [hstep]
    constructor
    · refine ⟨hinv.visitedInGrid, hinv.originVisited, ?_, ?_, hinv.reachableVisited,
        hinv.unvisitedIntact, hinv.removalsCard, hinv.edgesRemovals, hinv.spanTree⟩
      · intro p hp
        exact hinv.stackVisited p (by rw [hstack]; exact List.mem_cons_of_mem _ hp)
      · intro p hp hstk q hq hadj
        by_cases hpc : p = current
        · subst hpc
          exact neighbors_eq_nil hcurgrid hnb hq hadj
        · refine hinv.closedOffStack p hp ?_ q hq hadj
          rw [hstack]
          intro hmem
          rcases List.mem_cons.mp hmem with h | h
          · exact hpc h
          · exact hstk h
    · unfold genMeasure
      rw [hstack]
      simp only [List.length_cons]
      omega
  | cons n0 ns =>
    set nbs : List Pos := n0 :: ns with hnbs
    set idx := pickF s.rngState nbs.length with hidx
    have hlt : idx < nbs.length := hpick _ _ (by simp [hnbs])
    set next := nbs.getD idx ((0, 0) : Pos) with hnext
    have hmemnb : next ∈ getUnvisitedNeighbors s.visited rows cols current := by
      rw [hnb]
      exact getD_mem hlt _
    obtain ⟨hnextgrid, hadj, hnotvis⟩ := mem_neighbors hcurgrid hmemnb
    have hstep : genStep rows cols pickF s =
        { walls := removeWallBetween s.walls current next
          visited := insert next s.visited
          stack := next :: s.stack
          rngState := s.rngState + 1
          removals := s.removals + 1 } := by
      simp only [genStep, hstack, hnb]
    have hcard : (insert next s.visited).card = s.visited.card + 1 :=
      Finset.card_insert_of_not_mem hnotvis
    rw [hstep]
    constructor
    · refine ⟨?_, ?_, ?_, ?_, ?_, ?_, ?_, ?_, ?_⟩
      · exact Finset.insert_subset hnextgrid hinv.visitedInGrid
      · exact Finset.mem_insert_of_mem hinv.originVisited
      · intro p hp
        rcases List.mem_cons.mp hp with h | h
        · subst h
          exact Finset.mem_insert_self _ _
        · exact Finset.mem_insert_of_mem (hinv.stackVisited p h)
      · intro p hp hstk q hq hadjq
        have hpnext : p ≠ next := by
          intro h
          exact hstk (h ▸ List.mem_cons_self _ _)
        have hpold : p ∈ s.visited := by
          rcases Finset.mem_insert.mp hp with h | h
          · exact absurd h hpnext
          · exact h
        have hpstk : p ∉ s.stack := fun h => hstk (List.mem_cons_of_mem _ h)
        exact Finset.mem_insert_of_mem (hinv.closedOffStack p hpold hpstk q hq hadjq)
      · intro p hp
        have hmono := removeWall_wallLe s.walls current next
        rcases Finset.mem_insert.mp hp with h | h
        · subst h
          refine Relation.ReflTransGen.tail
            (passReach_mono hmono (hinv.reachableVisited current hcurvis)) ?_
          exact passOpen_removeWall hadj
        · exact passReach_mono hmono (hinv.reachableVisited p h)
      · intro p hp
        have hpnext : p ≠ next := fun h => hp (h ▸ Finset.mem_insert_self _ _)
        have hpold : p ∉ s.visited := fun h => hp (Finset.mem_insert_of_mem h)
        have hpcur : p ≠ current := fun h => hpold (h ▸ hcurvis)
        show removeWallBetween s.walls current next p = initWalls p
        rw [removeWall_eq_of_ne hpcur hpnext]
        exact hinv.unvisitedIntact p hpold
      · show s.removals + 1 + 1 = (insert next s.visited).card
        rw [hcard]
        have := hinv.removalsCard
        omega
      · show edgeCount rows cols (removeWallBetween s.walls current next) = s.removals + 1
        rw [edgeCount_removeWall hcurgrid hnextgrid hadj
          (hinv.unvisitedIntact next hnotvis), hinv.edgesRemovals]
      · obtain ⟨parent, depth, hE1, hE2⟩ := hinv.spanTree
        have hnextroot : next ≠ ((0, 0) : Pos) := fun h => hnotvis (h ▸ hinv.originVisited)
        have hcurnext : current ≠ next := fun h => hnotvis (h ▸ hcurvis)
        set parent2 : Pos → Pos := fun x => if x = next then current else parent x
          with hpar2
        set depth2 : Pos → Nat := fun x => if x = next then depth current + 1 else depth x
          with hdep2
        have hP2 : parent2 next = current := by simp [hpar2]
        have hP1 : ∀ x, x ≠ next → parent2 x = parent x := by
          intro x hx
          simp [hpar2, hx]
        have hD2 : depth2 next = depth current + 1 := by simp [hdep2]
        have hD1 : ∀ x, x ≠ next → depth2 x = depth x := by
          intro x hx
          simp [hdep2, hx]
        refine ⟨parent2, depth2, ?_, ?_⟩
        · intro p q
          rw [passOpen_removeWall_iff hadj p q, hE1 p q]
          constructor
          · rintro (hold | ⟨hp, hq⟩ | ⟨hp, hq⟩)
            · rcases hold with ⟨hq, hqr, hpq⟩ | ⟨hp', hpr, hqp⟩
              · left
                have hqn : q ≠ next := fun h => hnotvis (h ▸ hq)
                rw [hP1 q hqn]
                exact ⟨Finset.mem_insert_of_mem hq, hqr, hpq⟩
              · right
                have hpn : p ≠ next := fun h => hnotvis (h ▸ hp')
                rw [hP1 p hpn]
                exact ⟨Finset.mem_insert_of_mem hp', hpr, hqp⟩
            · subst hp
              subst hq
              left
              rw [hP2]
              exact ⟨Finset.mem_insert_self _ _, hnextroot, rfl⟩
            · subst hp
              subst hq
              right
              rw [hP2]
              exact ⟨Finset.mem_insert_self _ _, hnextroot, rfl⟩
          · rintro (⟨hq, hqr, hpq⟩ | ⟨hp', hpr, hqp⟩)
            · by_cases hqn : q = next
              · subst hqn
                rw [hP2] at hpq
                exact Or.inr (Or.inl ⟨hpq, rfl⟩)
              · rw [hP1 q hqn] at hpq
                have hq' : q ∈ s.visited := by
                  rcases Finset.mem_insert.mp hq with h | h
                  · exact absurd h hqn
                  · exact h
                exact Or.inl (Or.inl ⟨hq', hqr, hpq⟩)
            · by_cases hpn : p = next
              · subst hpn
                rw [hP2] at hqp
                exact Or.inr (Or.inr ⟨rfl, hqp⟩)
              · rw [hP1 p hpn] at hqp
                have hp2 : p ∈ s.visited := by
                  rcases Finset.mem_insert.mp hp' with h | h
                  · exact absurd h hpn
                  · exact h
                exact Or.inl (Or.inr ⟨hp2, hpr, hqp⟩)
        · intro p hp hpr
          by_cases hpn : p = next
          · subst hpn
            rw [hP2, hD2, hD1 current hcurnext]
            exact ⟨Finset.mem_insert_of_mem hcurvis, rfl⟩
          · have hp' : p ∈ s.visited := by
              rcases Finset.mem_insert.mp hp with h | h
              · exact absurd h hpn
              · exact h
            obtain ⟨hm, hd⟩ := hE2 p hp' hpr
            have hparn : parent p ≠ next := fun h => hnotvis (h ▸ hm)
            rw [hP1 p hpn, hD1 p hpn, hD1 (parent p) hparn]
            exact ⟨Finset.mem_insert_of_mem hm, hd⟩
    · have hsub : s.visited.card < (gridSet rows cols).card :=
        Finset.card_lt_card
          (Finset.ssubset_iff_of_subset hinv.visitedInGrid |>.mpr
            ⟨next, hnextgrid, hnotvis⟩)
      show 2 * ((gridSet rows cols).card - (insert next s.visited).card)
          + (next :: s.stack).length < genMeasure rows cols s
      unfold genMeasure
      rw [hcard, hstack]
      simp only [List.length_cons]
      omega

theorem genLoop_inv {rows cols : Nat} {pickF : Nat → Nat → Nat}
    (hpick : ∀ k n, 0 < n → pickF k n < n) :
    ∀ fuel s, Inv rows cols s → genMeasure rows cols s ≤ fuel →
      Inv rows cols (genLoop rows cols pickF fuel s) ∧
        (genLoop rows cols pickF fuel s).stack = [] := by
  intro fuel
  induction fuel with
  | zero =>
    intro s hinv hm
    have hlen : s.stack.length = 0 := by
      unfold genMeasure at hm
      omega
    exact ⟨hinv, List.length_eq_zero.mp hlen⟩
  | succ n ih =>
    intro s hinv hm
    cases hstack : s.stack with
    | nil =>
      simp only [genLoop, hstack]
      exact ⟨hinv, trivial⟩
    | cons c r =>
      have hne : s.stack ≠ [] := by rw [hstack]; simp
      obtain ⟨hinv', hlt⟩ := genStep_inv hpick hinv hne
      have hm' : genMeasure rows cols (genStep rows cols pickF s) ≤ n := by omega
      have hrec := ih _ hinv' hm'
      simp only [genLoop, hstack]
      exact hrec

theorem genLoop_of_empty {rows cols : Nat} {pickF : Nat → Nat → Nat} {s : GenState}
    (h : s.stack = []) : ∀ f, genLoop rows cols pickF f s = s := by
  intro f
  cases f with
  | zero => rfl
  | succ n => simp only [genLoop, h]

theorem genLoop_add {rows cols : Nat} {pickF : Nat → Nat → Nat} :
    ∀ (f g : Nat) (s : GenState),
      genLoop rows cols pickF (f + g) s = genLoop rows cols pickF g (genLoop rows cols pickF f s) := by
  intro f
  induction f with
  | zero =>
    intro g s
    rw [Nat.zero_add]
    rfl
  | succ n ih =>
    intro g s
    cases hstack : s.stack with
    | nil =>
      simp only [genLoop_of_empty hstack]
    | cons c r =>
      have h1 : n + 1 + g = (n + g) + 1 := by omega
      rw [h1]
      simp only [genLoop, hstack]
      exact ih g _

theorem visited_all {rows cols : Nat} {s : GenState} (_hr : 0 < rows) (hc : 0 < cols)
    (hinv : Inv rows cols s) (hempty : s.stack = []) :
    gridSet rows cols ⊆ s.visited := by
  have hcl : ∀ p ∈ s.visited, ∀ q ∈ gridSet rows cols, gridAdj p q → q ∈ s.visited := by
    intro p hp
    exact hinv.closedOffStack p hp (by rw [hempty]; simp)
  have col0 : ∀ r, r < rows → ((r, 0) : Pos) ∈ s.visited := by
    intro r
    induction r with
    | zero => intro _; exact hinv.originVisited
    | succ k ih =>
      intro hk
      exact hcl (k, 0) (ih (by omega)) (k + 1, 0)
        (pair_mem_gridSet.mpr ⟨hk, hc⟩) (gridAdj_pair.mpr (by omega))
  have allcells : ∀ c, c < cols → ∀ r, r < rows → ((r, c) : Pos) ∈ s.visited := by
    intro c
    induction c with
    | zero => intro _ r hrr; exact col0 r hrr
    | succ k ih =>
      intro hk r hrr
      exact hcl (r, k) (ih (by omega) r hrr) (r, k + 1)
        (pair_mem_gridSet.mpr ⟨hrr, hk⟩) (gridAdj_pair.mpr (by omega))
  intro p hp
  rcases p with ⟨r, c⟩
  obtain ⟨h1, h2⟩ := pair_mem_gridSet.mp hp
  exact allcells c h2 r h1

theorem genLoop_init {rows cols : Nat} (hr : 0 < rows) (hc : 0 < cols)
    {pickF : Nat → Nat → Nat} (hpick : ∀ k n, 0 < n → pickF k n < n) (rng0 : Nat) :
    Inv rows cols (genLoop rows cols pickF (2 * rows * cols) (initState rng0)) ∧
      (genLoop rows cols pickF (2 * rows * cols) (initState rng0)).stack = [] := by
  apply genLoop_inv hpick
  · exact initState_inv hr hc rng0
  · have hpos : 0 < rows * cols := Nat.mul_pos hr hc
    show 2 * ((gridSet rows cols).card - (initState rng0).visited.card)
        + (initState rng0).stack.length ≤ 2 * rows * cols
    have h1 : (initState rng0).visited.card = 1 := by simp [initState]
    have h2 : (initState rng0).stack.length = 1 := by simp [initState]
    have h3 : 2 * rows * cols = 2 * (rows * cols) := by ring
    rw [h1, h2, card_gridSet, h3]
    omega

theorem pickOf_lt (seed : Option Nat) {sinPick ambient : Nat → Nat → Nat}
    (hsin : ∀ k n, 0 < n → sinPick k n < n)
    (hamb : ∀ k n, 0 < n → ambient k n < n) :
    ∀ k n, 0 < n → pickOf seed sinPick ambient k n < n := by
  cases seed with
  | none => exact hamb
  | some s => exact hsin

/-- C3: for all `rows ≥ 1`, `cols ≥ 1` and every numeric seed, two independent
calls to `generateMaze (rows, cols, seed)` produce bit-identical wall flags in
every cell.  In the embedding the only source of cross-call non-determinism is
the ambient `Math.random()` stream; with a seed supplied, the run uses only the
seed-determined `SeededRandom` chooser (a fixed function of the seed), so the
result — in particular every cell's wall flags — is independent of the ambient
stream consumed by either call. -/
theorem generateMaze_seed_deterministic (rows cols seed : Nat)
    (_hrows : 1 ≤ rows) (_hcols : 1 ≤ cols)
    (sinPick amb1 amb2 : Nat → Nat → Nat) :
    generateMaze rows cols (some seed) sinPick amb1
        = generateMaze rows cols (some seed) sinPick amb2 ∧
      ∀ p : Pos, (generateMaze rows cols (some seed) sinPick amb1).walls p
        = (generateMaze rows cols (some seed) sinPick amb2).walls p :=
  ⟨rfl, fun _ => rfl⟩

/-- Witness for `generateMaze_seed_deterministic` at `rows = 2`, `cols = 3`,
`seed = 5`, with two distinct ambient streams. -/
theorem generateMaze_seed_deterministic_witness :
    1 ≤ 2 ∧ 1 ≤ 3 ∧
      generateMaze 2 3 (some 5) (fun k n => k % n) (fun k n => (k + 1) % n)
        = generateMaze 2 3 (some 5) (fun k n => k % n) (fun k n => (k + 2) % n) :=
  ⟨by decide, by decide,
    (generateMaze_seed_deterministic 2 3 5 (by decide) (by decide)
      (fun k n => k % n) (fun k n => (k + 1) % n) (fun k n => (k + 2) % n)).1⟩

/-- C5: for all `rows ≥ 1`, `cols ≥ 1` and every seed (and for the seedless
run), the backtracking loop terminates with every cell visited: within
`2 * rows * cols` iterations the stack is empty, every grid cell is marked
visited, and giving the loop any larger fuel returns the very same state (the
loop has genuinely reached its exit condition, not a fuel cutoff).  The range
hypotheses on the choosers state that a random index into a non-empty neighbor
list is always in bounds (`Math.floor(random() * n) < n` since
`0 ≤ random() < 1`). -/
theorem generateMaze_terminates (rows cols : Nat) (hr : 1 ≤ rows) (hc : 1 ≤ cols)
    (seed : Option Nat) (sinPick ambient : Nat → Nat → Nat)
    (hsin : ∀ k n, 0 < n → sinPick k n < n)
    (hamb : ∀ k n, 0 < n → ambient k n < n) :
    (generateMaze rows cols seed sinPick ambient).stack = [] ∧
      (∀ p ∈ gridSet rows cols,
        p ∈ (generateMaze rows cols seed sinPick ambient).visited) ∧
      ∀ f, 2 * rows * cols ≤ f →
        genLoop rows cols (pickOf seed sinPick ambient) f (initState (rng0Of seed))
          = generateMaze rows cols seed sinPick ambient := by
  have hpick := pickOf_lt seed hsin hamb
  obtain ⟨hinv, hempty⟩ := genLoop_init hr hc hpick (rng0Of seed)
  refine ⟨hempty, fun p hp => visited_all hr hc hinv hempty hp, ?_⟩
  intro f hf
  have hsplit : f = 2 * rows * cols + (f - 2 * rows * cols) := by omega
  rw [hsplit, genLoop_add, genLoop_of_empty hempty]
  rfl

/-- Witness for `generateMaze_terminates` at `rows = 2`, `cols = 2`, seeded. -/
theorem generateMaze_terminates_witness :
    1 ≤ 2 ∧ 1 ≤ 2 ∧
      ((generateMaze 2 2 (some 7) (fun k n => k % n) (fun k n => k % n)).stack = [] ∧
        (∀ p ∈ gridSet 2 2,
          p ∈ (generateMaze 2 2 (some 7) (fun k n => k % n) (fun k n => k % n)).visited) ∧
        ∀ f, 2 * 2 * 2 ≤ f →
          genLoop 2 2 (pickOf (some 7) (fun k n => k % n) (fun k n => k % n)) f
              (initState (rng0Of (some 7)))
            = generateMaze 2 2 (some 7) (fun k n => k % n) (fun k n => k % n)) :=
  ⟨by decide, by decide,
    generateMaze_terminates 2 2 (by decide) (by decide) (some 7)
      (fun k n => k % n) (fun k n => k % n)
      (fun _ n h => Nat.mod_lt _ h) (fun _ n h => Nat.mod_lt _ h)⟩

/-- C4: for all `rows ≥ 1`, `cols ≥ 1` and every seed, the generated grid is a
perfect maze: every cell is reachable from `(0, 0)` moving only through cleared
wall pairs (no isolated regions), the number of wall-pair removals is exactly
`rows * cols - 1`, the passage graph has exactly `rows * cols - 1` edges, and
the passage graph carries a rooted-spanning-tree structure: there is a parent
map with a strictly increasing depth function such that the cleared passages
are exactly the parent links of the non-root cells.  Every passage leads from a
cell to its unique parent, so the passage graph is acyclic (no loops): a
connected `rows * cols`-vertex tree with `rows * cols - 1` edges. -/
theorem generateMaze_perfect (rows cols : Nat) (hr : 1 ≤ rows) (hc : 1 ≤ cols)
    (seed : Option Nat) (sinPick ambient : Nat → Nat → Nat)
    (hsin : ∀ k n, 0 < n → sinPick k n < n)
    (hamb : ∀ k n, 0 < n → ambient k n < n) :
    (∀ p ∈ gridSet rows cols,
        PassReach (generateMaze rows cols seed sinPick ambient).walls ((0, 0) : Pos) p) ∧
      (generateMaze rows cols seed sinPick ambient).removals = rows * cols - 1 ∧
      edgeCount rows cols (generateMaze rows cols seed sinPick ambient).walls
        = rows * cols - 1 ∧
      ∃ parent : Pos → Pos, ∃ depth : Pos → Nat,
        (∀ p q, passOpen (generateMaze rows cols seed sinPick ambient).walls p q ↔
            IsParentEdge (gridSet rows cols) parent p q) ∧
          ∀ p ∈ gridSet rows cols, p ≠ ((0, 0) : Pos) →
            parent p ∈ gridSet rows cols ∧ depth p = depth (parent p) + 1 := by
  have hpick := pickOf_lt seed hsin hamb
  obtain ⟨hinv0, hempty0⟩ := genLoop_init hr hc hpick (rng0Of seed)
  have hinv : Inv rows cols (generateMaze rows cols seed sinPick ambient) := hinv0
  have hempty : (generateMaze rows cols seed sinPick ambient).stack = [] := hempty0
  have hall : gridSet rows cols ⊆ (generateMaze rows cols seed sinPick ambient).visited :=
    visited_all hr hc hinv hempty
  have hveq : (generateMaze rows cols seed sinPick ambient).visited = gridSet rows cols :=
    Finset.Subset.antisymm hinv.visitedInGrid hall
  have hviscard : (generateMaze rows cols seed sinPick ambient).visited.card = rows * cols := by
    rw [hveq, card_gridSet]
  have hrem : (generateMaze rows cols seed sinPick ambient).removals = rows * cols - 1 := by
    have h := hinv.removalsCard
    rw [hviscard] at h
    omega
  refine ⟨fun p hp => hinv.reachableVisited p (hall hp), hrem, ?_, ?_⟩
  · rw [hinv.edgesRemovals, hrem]
  · obtain ⟨parent, depth, hE1, hE2⟩ := hinv.spanTree
    rw [← hveq]
    exact ⟨parent, depth, hE1, hE2⟩

/-- Witness for `generateMaze_perfect` at `rows = 2`, `cols = 2`, seeded. -/
theorem generateMaze_perfect_witness :
    1 ≤ 2 ∧ 1 ≤ 2 ∧
      ((∀ p ∈ gridSet 2 2,
          PassReach (generateMaze 2 2 (some 3) (fun k n => k % n) (fun k n => k % n)).walls
            ((0, 0) : Pos) p) ∧
        (generateMaze 2 2 (some 3) (fun k n => k % n) (fun k n => k % n)).removals
          = 2 * 2 - 1 ∧
        edgeCount 2 2 (generateMaze 2 2 (some 3) (fun k n => k % n) (fun k n => k % n)).walls
          = 2 * 2 - 1 ∧
        ∃ parent : Pos → Pos, ∃ depth : Pos → Nat,
          (∀ p q,
              passOpen (generateMaze 2 2 (some 3) (fun k n => k % n) (fun k n => k % n)).walls
                  p q ↔
                IsParentEdge (gridSet 2 2) parent p q) ∧
            ∀ p ∈ gridSet 2 2, p ≠ ((0, 0) : Pos) →
              parent p ∈ gridSet 2 2 ∧ depth p = depth (parent p) + 1) :=
  ⟨by decide, by decide,
    generateMaze_perfect 2 2 (by decide) (by decide) (some 3)
      (fun k n => k % n) (fun k n => k % n)
      (fun _ n h => Nat.mod_lt _ h) (fun _ n h => Nat.mod_lt _ h)⟩

end MazeGen

namespace Server

/-- Opaque connection identifier (`socket.id`). -/
abbrev ConnId := Nat

/-- Opaque client payload relayed verbatim (positions, paddle heights, pong and
snake state snapshots).  The server never inspects these values, so any carrier
with decidable equality serves. -/
abbrev Val := Nat

inductive GameType
  | maze
  | snake
  | pong
deriving DecidableEq, Repr

/-- One `{ id, username }` entry of `gameInfo.players`. -/
structure PlayerEntry where
  id : ConnId
  username : String
deriving DecidableEq, Repr

/-- Room identifier: models the string `game-${socket.id}-${opponent.id}`
(injective in the two ids, which is all the code relies on). -/
abbrev RoomId := ConnId × ConnId

/-- One `{ username, score }` report stored in `gameInfo.scores`. -/
structure ScoreEntry where
  username : String
  score : Int
deriving DecidableEq, Repr

/-- The session record stored (by reference) in `activeGames`.  `scores` models
the lazily-created JS object keyed by connection id: a JS object preserves
insertion order of its (non-integer-like) string keys, hence an ordered
association list; the absent/empty states are both `[]`. -/
structure GameInfo where
  roomId : RoomId
  mazeSeed : Nat
  gameType : GameType
  players : List PlayerEntry
  startTime : Nat
  scores : List (ConnId × ScoreEntry)
deriving DecidableEq, Repr

/-- Server→client event messages, with their payloads. -/
inductive EventMsg
  | waitingForMatch
  | matchFound (roomId : RoomId) (mazeSeed : Nat) (gameType : GameType)
      (opponentId : ConnId) (opponentName : String) (playerNumber : Nat)
  | opponentMove (v : Val)
  | gameOver (winner : String) (time : ℚ)
  | pongOpponentPaddle (v : Val)
  | pongGameState (v : Val)
  | snakeOpponentState (v : Val)
  | opponentDisconnected
deriving DecidableEq, Repr

/-- Where an emit is addressed: `socket.emit` (one socket), `io.to(room).emit`
(every room member), `socket.to(room).emit` (every room member except the
sender). -/
inductive Target
  | toSocket (id : ConnId)
  | toRoom (r : RoomId)
  | toRoomExcept (r : RoomId) (sender : ConnId)
deriving DecidableEq, Repr

structure Emit where
  target : Target
  msg : EventMsg
deriving DecidableEq, Repr

/-- `waitingPlayers`: one FIFO per game type.  Entries are the queued sockets,
identified by connection id; a queued socket's `username` attribute is read
through the reference at pairing time. -/
structure Queues where
  maze : List ConnId
  snake : List ConnId
  pong : List ConnId
deriving DecidableEq, Repr

def Queues.get (q : Queues) : GameType → List ConnId
  | .maze => q.maze
  | .snake => q.snake
  | .pong => q.pong

def Queues.set (q : Queues) : GameType → List ConnId → Queues
  | .maze, l => { q with maze := l }
  | .snake, l => { q with snake := l }
  | .pong, l => { q with pong := l }

/-- JS `Map.get` / object property read on an ordered association list. -/
def lookupA {α : Type} (m : List (ConnId × α)) (k : ConnId) : Option α :=
  match m with
  | [] => none
  | (k', v) :: rest => if k' = k then some v else lookupA rest k

/-- JS `Map.set` / object property write: update in place if the key exists
(keeping its position), otherwise append. -/
def setA {α : Type} (m : List (ConnId × α)) (k : ConnId) (v : α) :
    List (ConnId × α) :=
  match m with
  | [] => [(k, v)]
  | (k', v') :: rest => if k' = k then (k, v) :: rest else (k', v') :: setA rest k v

/-- JS `Map.delete`: drop the key's entry. -/
def delA {α : Type} (m : List (ConnId × α)) (k : ConnId) : List (ConnId × α) :=
  match m with
  | [] => []
  | (k', v') :: rest => if k' = k then delA rest k else (k', v') :: delA rest k

/-- `socket.join(roomId)`. -/
def roomJoin (rooms : List (RoomId × List ConnId)) (r : RoomId) (id : ConnId) :
    List (RoomId × List ConnId) :=
  match rooms with
  | [] => [(r, [id])]
  | (r', ms) :: rest =>
    if r' = r then (r', ms ++ [id]) :: rest else (r', ms) :: roomJoin rest r id

def roomMembers (rooms : List (RoomId × List ConnId)) (r : RoomId) : List ConnId :=
  match rooms with
  | [] => []
  | (r', ms) :: rest => if r' = r then ms else roomMembers rest r

/-- The transport removes a closed socket from every room it joined. -/
def leaveAllRooms (rooms : List (RoomId × List ConnId)) (id : ConnId) :
    List (RoomId × List ConnId) :=
  rooms.map (fun e => (e.1, e.2.filter (fun m => m ≠ id)))

/-- The process-wide server state: the matchmaking queues, the heap of
`gameInfo` records (`store`, append-only — a JS object is never destroyed while
referenced), the `activeGames` map sending a connection id to the index of its
record (two ids mapping to the same index share one record, as two `Map` keys
share one object reference), the per-socket `username` attributes, the room
membership tables, and a ghost log of every emitted event in order. -/
structure ServerState where
  queues : Queues
  store : List GameInfo
  activeGames : List (ConnId × Nat)
  usernames : List (ConnId × String)
  rooms : List (RoomId × List ConnId)
  log : List Emit
deriving DecidableEq, Repr

def initialState : ServerState :=
  { queues := ⟨[], [], []⟩
    store := []
    activeGames := []
    usernames := []
    rooms := []
    log := [] }

/-- `socket.username`: reading an attribute never assigned yields `undefined`;
modeled as `""` (no handler ever branches on it). -/
def usernameOf (st : ServerState) (id : ConnId) : String :=
  (lookupA st.usernames id).getD ""

/-- `activeGames.get(socket.id)`: dereference the stored record.  The inner
`none` case is unreachable (the map stores references, which cannot dangle;
every stored index is below `store.length`). -/
def getGame (st : ServerState) (id : ConnId) : Option (Nat × GameInfo) :=
  match lookupA st.activeGames id with
  | none => none
  | some idx =>
    match st.store[idx]? with
    | none => none
    | some g => some (idx, g)

/-- The `find-match` handler.  `seed` is the value drawn by
`generateMazeSeed()` and `now` the value of `Date.now()` at this event, both
supplied as external inputs.  With `GameType` an enumeration, the
`waitingPlayers[gameType]` lookup always finds a queue, so the
`if (queue && ...)` guards reduce to the emptiness test. -/
def findMatch (st : ServerState) (sid : ConnId) (username : String)
    (gt : GameType) (seed now : Nat) : ServerState :=
  let st1 := { st with usernames := setA st.usernames sid username }
  match st1.queues.get gt with
  | [] =>
    { st1 with
        queues := st1.queues.set gt (st1.queues.get gt ++ [sid])
        log := st1.log ++ [⟨.toSocket sid, .waitingForMatch⟩] }
  | opp :: rest =>
    let roomId : RoomId := (sid, opp)
    let oppName := usernameOf st1 opp
    let g : GameInfo :=
      { roomId := roomId
        mazeSeed := seed
        gameType := gt
        players := [⟨sid, username⟩, ⟨opp, oppName⟩]
        startTime := now
        scores := [] }
    let idx := st1.store.length
    { st1 with
        queues := st1.queues.set gt rest
        store := st1.store ++ [g]
        activeGames := setA (setA st1.activeGames sid idx) opp idx
        rooms := roomJoin (roomJoin st1.rooms roomId sid) roomId opp
        log := st1.log ++
          [⟨.toSocket sid, .matchFound roomId seed gt opp oppName 1⟩,
            ⟨.toSocket opp, .matchFound roomId seed gt sid username 2⟩] }

/-- The `player-move` handler: relay the position to the rest of the room. -/
def playerMove (st : ServerState) (sid : ConnId) (position : Val) : ServerState :=
  match getGame st sid with
  | none => st
  | some (_, g) =>
    { st with log := st.log ++ [⟨.toRoomExcept g.roomId sid, .opponentMove position⟩] }

/-- The `player-finished` handler: broadcast game-over to the whole room with
the sender as winner and the elapsed seconds `(now - startTime) / 1000`. -/
def playerFinished (st : ServerState) (sid : ConnId) (now : Nat) : ServerState :=
  match getGame st sid with
  | none => st
  | some (_, g) =>
    let finishTime := now - g.startTime
    { st with
        log := st.log ++
          [⟨.toRoom g.roomId, .gameOver (usernameOf st sid) ((finishTime : ℚ) / 1000)⟩] }

/-- The `pong-paddle-move` handler (guarded on `gameType === "pong"`). -/
def pongPaddleMove (st : ServerState) (sid : ConnId) (y : Val) : ServerState :=
  match getGame st sid with
  | none => st
  | some (_, g) =>
    if g.gameType = .pong then
      { st with log := st.log ++ [⟨.toRoomExcept g.roomId sid, .pongOpponentPaddle y⟩] }
    else st

/-- The `pong-update-state` handler (guarded on `gameType === "pong"`). -/
def pongUpdateState (st : ServerState) (sid : ConnId) (v : Val) : ServerState :=
  match getGame st sid with
  | none => st
  | some (_, g) =>
    if g.gameType = .pong then
      { st with log := st.log ++ [⟨.toRoomExcept g.roomId sid, .pongGameState v⟩] }
    else st

/-- The `pong-game-over` handler (guarded on `gameType === "pong"`). -/
def pongGameOver (st : ServerState) (sid : ConnId) (winner : String) : ServerState :=
  match getGame st sid with
  | none => st
  | some (_, g) =>
    if g.gameType = .pong then
      { st with log := st.log ++ [⟨.toRoom g.roomId, .gameOver winner 0⟩] }
    else st

/-- The `snake-update-state` handler (guarded on `gameType === "snake"`). -/
def snakeUpdateState (st : ServerState) (sid : ConnId) (v : Val) : ServerState :=
  match getGame st sid with
  | none => st
  | some (_, g) =>
    if g.gameType = .snake then
      { st with log := st.log ++ [⟨.toRoomExcept g.roomId sid, .snakeOpponentState v⟩] }
    else st

/-- The `snake-game-over` handler: store this player's score in the shared
record; once both players have reported, compare the two reports in insertion
order (`Object.values`) and broadcast game-over with
`scores[0].score > scores[1].score ? scores[0].username : scores[1].username`. -/
def snakeGameOver (st : ServerState) (sid : ConnId) (username : String)
    (score : Int) : ServerState :=
  match getGame st sid with
  | none => st
  | some (idx, g) =>
    if g.gameType = .snake then
      let scores' := setA g.scores sid ⟨username, score⟩
      let st' := { st with store := st.store.set idx { g with scores := scores' } }
      if scores'.length = 2 then
        let s0 := (scores'.getD 0 (0, ⟨"", 0⟩)).2
        let s1 := (scores'.getD 1 (0, ⟨"", 0⟩)).2
        let winner := if s0.score > s1.score then s0.username else s1.username
        { st' with log := st'.log ++ [⟨.toRoom g.roomId, .gameOver winner 0⟩] }
      else st'
    else st

/-- `findIndex` + `splice(waitingIndex, 1)`: remove the first entry with the
disconnected id (if any). -/
def removeFirst (q : List ConnId) (did : ConnId) : List ConnId :=
  match q with
  | [] => []
  | x :: rest => if x = did then rest else x :: removeFirst rest did

/-- The `disconnect` handler: the transport has already removed the socket from
its rooms; the handler then removes it from every waiting queue, and, if it was
in an active game, notifies the rest of the room and deletes the record under
every member id. -/
def disconnect (st : ServerState) (did : ConnId) : ServerState :=
  let st1 := { st with rooms := leaveAllRooms st.rooms did }
  let st2 :=
    { st1 with
        queues :=
          ⟨removeFirst st1.queues.maze did, removeFirst st1.queues.snake did,
            removeFirst st1.queues.pong did⟩ }
  match getGame st2 did with
  | none => st2
  | some (_, g) =>
    { st2 with
        activeGames := g.players.foldl (fun m p => delA m p.id) st2.activeGames
        log := st2.log ++ [⟨.toRoomExcept g.roomId did, .opponentDisconnected⟩] }

/-- The set of connections a single emit reaches, given the room tables in
effect when it is sent: `socket.emit` reaches exactly its socket, `io.to(room)`
every member of the room, `socket.to(room)` every member except the sender. -/
def deliveredTo (rooms : List (RoomId × List ConnId)) (e : Emit) : List ConnId :=
  match e.target with
  | .toSocket id => [id]
  | .toRoom r => roomMembers rooms r
  | .toRoomExcept r s => (roomMembers rooms r).filter (fun m => m ≠ s)

theorem lookupA_setA {α : Type} (m : List (ConnId × α)) (k i : ConnId) (v : α) :
    lookupA (setA m k v) i = if k = i then some v else lookupA m i := by
  induction m with
  | nil => rfl
  | cons e rest ih =>
    rcases e with ⟨k', v'⟩
    by_cases h1 : k' = k
    · subst h1
      simp only [setA, if_pos rfl, lookupA]
      by_cases h2 : k' = i <;> simp [h2]
    · simp only [setA, if_neg h1, lookupA]
      by_cases h2 : k' = i
      · subst h2
        have : ¬(k = k') := fun h => h1 h.symm
        simp [this]
      · simp [h2, ih]

theorem lookupA_delA {α : Type} (m : List (ConnId × α)) (k i : ConnId) :
    lookupA (delA m k) i = if k = i then none else lookupA m i := by
  induction m with
  | nil =>
    simp only [delA, lookupA]
    split <;> rfl
  | cons e rest ih =>
    rcases e with ⟨k', v'⟩
    by_cases h1 : k' = k
    · subst h1
      have hd : delA ((k', v') :: rest) k' = delA rest k' := by simp [delA]
      rw [hd, ih]
      by_cases h2 : k' = i
      · simp [h2]
      · simp [lookupA, h2]
    · simp only [delA, if_neg h1, lookupA]
      by_cases h2 : k' = i
      · subst h2
        have hki : ¬(k = k') := fun h => h1 h.symm
        simp [hki]
      · simp [h2, ih]

/-- Unfolded characterization of a successful registry lookup. -/
theorem getGame_eq_some {st : ServerState} {id : ConnId} {i : Nat} {g : GameInfo} :
    getGame st id = some (i, g) ↔
      lookupA st.activeGames id = some i ∧ st.store[i]? = some g := by
  constructor
  · intro h
    unfold getGame at h
    cases h1 : lookupA st.activeGames id with
    | none => simp [h1] at h
    | some idx =>
      cases h2 : st.store[idx]? with
      | none => simp [h1, h2] at h
      | some g' =>
        simp only [h1, h2, Option.some.injEq, Prod.mk.injEq] at h
        obtain ⟨rfl, rfl⟩ := h
        exact ⟨rfl, h2⟩
  · rintro ⟨h1, h2⟩
    unfold getGame
    simp [h1, h2]

theorem roomMembers_leaveAll (rooms : List (RoomId × List ConnId)) (id : ConnId)
    (r : RoomId) :
    roomMembers (leaveAllRooms rooms id) r
      = (roomMembers rooms r).filter (fun m => m ≠ id) := by
  induction rooms with
  | nil => rfl
  | cons e rest ih =>
    rcases e with ⟨r', ms⟩
    by_cases h : r' = r
    · subst h
      simp [leaveAllRooms, roomMembers]
    · have hl : leaveAllRooms ((r', ms) :: rest) id
          = (r', ms.filter (fun m => m ≠ id)) :: leaveAllRooms rest id := by
        simp [leaveAllRooms]
      rw [hl]
      simp only [roomMembers, if_neg h]
      exact ih

/-- C1 (counterexample): seeker A (connection 1) requests a maze match first
and is queued; seeker B (connection 2) requests next and completes the pairing.
The entry popped from the front of the queue (A) receives `playerNumber 2` in
its match-found notification and the newly arriving requester (B) receives
`playerNumber 1` — the reverse of the claimed assignment (lines 69–83 of
`src/server/index.js` hard-code `playerNumber: 1` into `socket.emit` for the
requester and `playerNumber: 2` into `opponent.emit` for the popped entry). -/
theorem findMatch_playerNumber_counterexample :
    (findMatch (findMatch initialState 1 "A" .maze 7 100) 2 "B" .maze 8 200).log
      = [⟨.toSocket 1, .waitingForMatch⟩,
          ⟨.toSocket 2, .matchFound (2, 1) 8 .maze 1 "A" 1⟩,
          ⟨.toSocket 1, .matchFound (2, 1) 8 .maze 2 "B" 2⟩] := by
  rfl

/-- C1 (amended): for every pairing performed by the find-match handler when
the game type's queue is non-empty, the entry popped from the front of the
queue (the earliest-waiting seeker) is assigned playerNumber 2 in its
match-found notification, and the newly arriving requester is assigned
playerNumber 1. -/
theorem findMatch_playerNumber_assignment (st : ServerState) (sid : ConnId)
    (username : String) (gt : GameType) (seed now : Nat) (opp : ConnId)
    (rest : List ConnId) (h : st.queues.get gt = opp :: rest) :
    ∃ oppName,
      (findMatch st sid username gt seed now).log
        = st.log ++
          [⟨.toSocket sid, .matchFound (sid, opp) seed gt opp oppName 1⟩,
            ⟨.toSocket opp, .matchFound (sid, opp) seed gt sid username 2⟩] := by
  refine ⟨usernameOf { st with usernames := setA st.usernames sid username } opp, ?_⟩
  simp only [findMatch, h]

/-- Witness for `findMatch_playerNumber_assignment`: the queue for maze holds
exactly connection 1 after A's request, and B's request then pairs with it. -/
theorem findMatch_playerNumber_assignment_witness :
    (findMatch initialState 1 "A" .maze 7 100).queues.get .maze = 1 :: [] ∧
      ∃ oppName,
        (findMatch (findMatch initialState 1 "A" .maze 7 100) 2 "B" .maze 8 200).log
          = (findMatch initialState 1 "A" .maze 7 100).log ++
            [⟨.toSocket 2, .matchFound (2, 1) 8 .maze 1 oppName 1⟩,
              ⟨.toSocket 1, .matchFound (2, 1) 8 .maze 2 "B" 2⟩] :=
  ⟨rfl, findMatch_playerNumber_assignment (findMatch initialState 1 "A" .maze 7 100)
    2 "B" .maze 8 200 1 [] rfl⟩

/-- C2 (counterexample): pair connections 1 and 2 in a maze session; connection
2 then reports `player-finished` (a win condition, which broadcasts game-over).
The session records of both members are still present in the registry
afterwards, and a subsequent `player-move` from the former member 1 is still
relayed to the room (not dropped): none of the three win-condition handlers
ever calls `activeGames.delete`. -/
theorem winTermination_counterexample :
    lookupA (playerFinished
        (findMatch (findMatch initialState 1 "A" .maze 7 100) 2 "B" .maze 8 200)
        2 1200).activeGames 1 = some 0 ∧
      lookupA (playerFinished
        (findMatch (findMatch initialState 1 "A" .maze 7 100) 2 "B" .maze 8 200)
        2 1200).activeGames 2 = some 0 ∧
      (playerMove (playerFinished
          (findMatch (findMatch initialState 1 "A" .maze 7 100) 2 "B" .maze 8 200)
          2 1200) 1 42).log
        = (playerFinished
            (findMatch (findMatch initialState 1 "A" .maze 7 100) 2 "B" .maze 8 200)
            2 1200).log ++ [⟨.toRoomExcept (2, 1) 1, .opponentMove 42⟩] := by
  refine ⟨rfl, rfl, rfl⟩

theorem getGame_set_log {st : ServerState} {l : List Emit} {id : ConnId} :
    getGame { st with log := l } id = getGame st id := rfl

/-- C2 (amended): a win-condition termination (maze `player-finished`, pong
`pong-game-over`, or the second snake score report) broadcasts game-over but
does NOT remove the session record from the registry: the `activeGames` map is
left unchanged by `player-finished` and `pong-game-over`, its key set is left
unchanged by `snake-game-over`, and a gameplay event arriving after the
win-condition game-over still finds the session and is relayed (only the
disconnect handler removes session records). -/
theorem winTermination_keeps_registry (st : ServerState) (sid : ConnId)
    (i : Nat) (g : GameInfo) (h : getGame st sid = some (i, g))
    (now : Nat) (v : Val) (w uname : String) (score : Int) :
    (playerFinished st sid now).activeGames = st.activeGames ∧
      (pongGameOver st sid w).activeGames = st.activeGames ∧
      (snakeGameOver st sid uname score).activeGames = st.activeGames ∧
      (playerMove (playerFinished st sid now) sid v).log
        = (playerFinished st sid now).log
            ++ [⟨.toRoomExcept g.roomId sid, .opponentMove v⟩] := by
  have hfin : playerFinished st sid now
      = { st with
            log := st.log ++
              [⟨.toRoom g.roomId,
                .gameOver (usernameOf st sid) (((now - g.startTime : Nat) : ℚ) / 1000)⟩] } := by
    simp only [playerFinished, h]
  refine ⟨by rw [hfin], ?_, ?_, ?_⟩
  · simp only [pongGameOver, h]
    split <;> rfl
  · simp only [snakeGameOver, h]
    split
    · split <;> rfl
    · rfl
  · rw [hfin]
    have h2 : getGame { st with
        log := st.log ++
          [⟨.toRoom g.roomId,
            .gameOver (usernameOf st sid) (((now - g.startTime : Nat) : ℚ) / 1000)⟩] } sid
        = some (i, g) := by
      rw [getGame_set_log, h]
    simp only [playerMove, h2]

/-- Witness for `winTermination_keeps_registry` on the concrete two-member maze
session of the counterexample. -/
theorem winTermination_keeps_registry_witness :
    getGame (findMatch (findMatch initialState 1 "A" .maze 7 100) 2 "B" .maze 8 200) 2
        = some (0,
          { roomId := (2, 1)
            mazeSeed := 8
            gameType := .maze
            players := [⟨2, "B"⟩, ⟨1, "A"⟩]
            startTime := 200
            scores := [] }) ∧
      ((playerFinished (findMatch (findMatch initialState 1 "A" .maze 7 100) 2 "B" .maze 8 200)
          2 1200).activeGames
        = (findMatch (findMatch initialState 1 "A" .maze 7 100) 2 "B" .maze 8 200).activeGames ∧
        (pongGameOver (findMatch (findMatch initialState 1 "A" .maze 7 100) 2 "B" .maze 8 200)
            2 "B").activeGames
          = (findMatch (findMatch initialState 1 "A" .maze 7 100) 2 "B" .maze 8 200).activeGames ∧
        (snakeGameOver (findMatch (findMatch initialState 1 "A" .maze 7 100) 2 "B" .maze 8 200)
            2 "B" 10).activeGames
          = (findMatch (findMatch initialState 1 "A" .maze 7 100) 2 "B" .maze 8 200).activeGames ∧
        (playerMove (playerFinished
            (findMatch (findMatch initialState 1 "A" .maze 7 100) 2 "B" .maze 8 200) 2 1200)
            2 42).log
          = (playerFinished
              (findMatch (findMatch initialState 1 "A" .maze 7 100) 2 "B" .maze 8 200) 2 1200).log
              ++ [⟨.toRoomExcept (2, 1) 2, .opponentMove 42⟩]) :=
  ⟨rfl, winTermination_keeps_registry
    (findMatch (findMatch initialState 1 "A" .maze 7 100) 2 "B" .maze 8 200) 2 0
    { roomId := (2, 1)
      mazeSeed := 8
      gameType := .maze
      players := [⟨2, "B"⟩, ⟨1, "A"⟩]
      startTime := 200
      scores := [] } rfl 1200 42 "B" "B" 10⟩

theorem Queues.get_set_self (q : Queues) (gt : GameType) (l : List ConnId) :
    (q.set gt l).get gt = l := by
  cases gt <;> rfl

theorem initialState_queue_empty (gt : GameType) :
    initialState.queues.get gt = [] := by
  cases gt <;> rfl

theorem findMatch_enqueue_empty (st : ServerState) (sid : ConnId) (un : String)
    (gtype : GameType) (sd nw : Nat) (h : st.queues.get gtype = []) :
    (findMatch st sid un gtype sd nw).queues.get gtype = [sid] := by
  simp [findMatch, h, Queues.get_set_self]

theorem findMatch_pop (st : ServerState) (sid : ConnId) (un : String)
    (gtype : GameType) (sd nw : Nat) (opp : ConnId) (rest : List ConnId)
    (h : st.queues.get gtype = opp :: rest) :
    (findMatch st sid un gtype sd nw).queues.get gtype = rest := by
  simp [findMatch, h, Queues.get_set_self]

theorem findMatch_pair_log (st : ServerState) (sid : ConnId) (un : String)
    (gtype : GameType) (sd nw : Nat) (opp : ConnId) (rest : List ConnId)
    (h : st.queues.get gtype = opp :: rest) :
    (findMatch st sid un gtype sd nw).log
      = st.log ++
        [⟨.toSocket sid, .matchFound (sid, opp) sd gtype opp
            (usernameOf { st with usernames := setA st.usernames sid un } opp) 1⟩,
          ⟨.toSocket opp, .matchFound (sid, opp) sd gtype sid un 2⟩] := by
  simp only [findMatch, h]

theorem findMatch_usernames (st : ServerState) (sid : ConnId) (un : String)
    (gtype : GameType) (sd nw : Nat) :
    (findMatch st sid un gtype sd nw).usernames = setA st.usernames sid un := by
  cases h : st.queues.get gtype with
  | nil => simp [findMatch, h]
  | cons o r => simp [findMatch, h]

/-- C6: matchmaking is FIFO per game type.  Starting from the initial state
(empty queues, no sessions), distinct seekers A, B, C request the same game
type in that order: after A's request the queue holds exactly A; B's request
completes the pairing of A with B (match-found is sent to both, naming each
other as opponents) and empties the queue; C's request leaves C as the sole
queued seeker.  Moreover every find-match either pops exactly the front of the
requested game type's queue or appends the requester at its tail — queue order
is insertion order, with no reordering and no eviction. -/
theorem matchmaking_fifo (a b c : ConnId) (na nb nc : String) (gt : GameType)
    (s1 n1 s2 n2 s3 n3 : Nat) (hab : a ≠ b) (_hac : a ≠ c) (_hbc : b ≠ c) :
    (findMatch initialState a na gt s1 n1).queues.get gt = [a] ∧
      (findMatch (findMatch initialState a na gt s1 n1) b nb gt s2 n2).log
        = (findMatch initialState a na gt s1 n1).log ++
          [⟨.toSocket b, .matchFound (b, a) s2 gt a na 1⟩,
            ⟨.toSocket a, .matchFound (b, a) s2 gt b nb 2⟩] ∧
      (findMatch (findMatch initialState a na gt s1 n1) b nb gt s2 n2).queues.get gt
        = [] ∧
      (findMatch (findMatch (findMatch initialState a na gt s1 n1) b nb gt s2 n2)
          c nc gt s3 n3).queues.get gt = [c] ∧
      ∀ st sid un gtype sd nw,
        ((findMatch st sid un gtype sd nw).queues.get gtype
            = (st.queues.get gtype).drop 1 ∧ st.queues.get gtype ≠ []) ∨
          ((findMatch st sid un gtype sd nw).queues.get gtype
            = st.queues.get gtype ++ [sid] ∧ st.queues.get gtype = []) := by
  have hgen : ∀ st sid un gtype sd nw,
      ((findMatch st sid un gtype sd nw).queues.get gtype
          = (st.queues.get gtype).drop 1 ∧ st.queues.get gtype ≠ []) ∨
        ((findMatch st sid un gtype sd nw).queues.get gtype
          = st.queues.get gtype ++ [sid] ∧ st.queues.get gtype = []) := by
    intro st sid un gtype sd nw
    cases hq : st.queues.get gtype with
    | nil =>
      right
      exact ⟨by rw [findMatch_enqueue_empty st sid un gtype sd nw hq]; rfl, rfl⟩
    | cons o r =>
      left
      exact ⟨by rw [findMatch_pop st sid un gtype sd nw o r hq]; rfl, by simp⟩
  have hba : ¬(b = a) := fun h => hab h.symm
  have e0 : initialState.queues.get gt = [] := initialState_queue_empty gt
  have e1 : (findMatch initialState a na gt s1 n1).queues.get gt = [a] :=
    findMatch_enqueue_empty initialState a na gt s1 n1 e0
  have eu : (findMatch initialState a na gt s1 n1).usernames = setA [] a na :=
    findMatch_usernames initialState a na gt s1 n1
  have e2 : (findMatch (findMatch initialState a na gt s1 n1) b nb gt s2 n2).queues.get gt
      = [] := findMatch_pop _ b nb gt s2 n2 a [] e1
  refine ⟨e1, ?_, e2, findMatch_enqueue_empty _ c nc gt s3 n3 e2, hgen⟩
  rw [findMatch_pair_log _ b nb gt s2 n2 a [] e1]
  have hname : usernameOf
      { (findMatch initialState a na gt s1 n1) with
          usernames := setA (findMatch initialState a na gt s1 n1).usernames b nb } a
      = na := by
    simp [usernameOf, eu, lookupA_setA, hba]
  rw [hname]

/-- Witness for `matchmaking_fifo`: seekers 1 ("A"), 2 ("B"), 3 ("C") on the
maze queue. -/
theorem matchmaking_fifo_witness :
    (1 : ConnId) ≠ 2 ∧ (1 : ConnId) ≠ 3 ∧ (2 : ConnId) ≠ 3 ∧
      ((findMatch initialState 1 "A" .maze 7 100).queues.get .maze = [1] ∧
        (findMatch (findMatch initialState 1 "A" .maze 7 100) 2 "B" .maze 8 200).log
          = (findMatch initialState 1 "A" .maze 7 100).log ++
            [⟨.toSocket 2, .matchFound (2, 1) 8 .maze 1 "A" 1⟩,
              ⟨.toSocket 1, .matchFound (2, 1) 8 .maze 2 "B" 2⟩] ∧
        (findMatch (findMatch initialState 1 "A" .maze 7 100) 2 "B" .maze 8 200).queues.get
            .maze = [] ∧
        (findMatch (findMatch (findMatch initialState 1 "A" .maze 7 100) 2 "B" .maze 8 200)
            3 "C" .maze 9 300).queues.get .maze = [3] ∧
        ∀ st sid un gtype sd nw,
          ((findMatch st sid un gtype sd nw).queues.get gtype
              = (st.queues.get gtype).drop 1 ∧ st.queues.get gtype ≠ []) ∨
            ((findMatch st sid un gtype sd nw).queues.get gtype
              = st.queues.get gtype ++ [sid] ∧ st.queues.get gtype = [])) :=
  ⟨by decide, by decide, by decide,
    matchmaking_fifo 1 2 3 "A" "B" "C" .maze 7 100 8 200 9 300
      (by decide) (by decide) (by decide)⟩

/-- C10: the `player-move` and `player-finished` handlers never check the
session's game type: for every active session — maze, snake or pong alike — a
`player-move` from a member is relayed to the rest of the room as
`opponent-move`, and a `player-finished` broadcasts game-over naming the sender
as winner with the elapsed time `(now - startTime) / 1000`; whereas each
`pong-*` handler is a no-op unless the session's `gameType` is pong (and then
acts), and each `snake-*` handler is a no-op unless it is snake. -/
theorem relay_gameType_handling (st : ServerState) (sid : ConnId) (i : Nat)
    (g : GameInfo) (hg : getGame st sid = some (i, g)) (v : Val) (now : Nat)
    (w un : String) (sc : Int) :
    (playerMove st sid v).log
        = st.log ++ [⟨.toRoomExcept g.roomId sid, .opponentMove v⟩] ∧
      (playerFinished st sid now).log
        = st.log ++
          [⟨.toRoom g.roomId,
            .gameOver (usernameOf st sid) (((now - g.startTime : Nat) : ℚ) / 1000)⟩] ∧
      (g.gameType ≠ .pong →
        pongPaddleMove st sid v = st ∧ pongUpdateState st sid v = st ∧
          pongGameOver st sid w = st) ∧
      (g.gameType ≠ .snake →
        snakeUpdateState st sid v = st ∧ snakeGameOver st sid un sc = st) ∧
      (g.gameType = .pong →
        (pongPaddleMove st sid v).log
          = st.log ++ [⟨.toRoomExcept g.roomId sid, .pongOpponentPaddle v⟩]) ∧
      (g.gameType = .snake →
        (snakeUpdateState st sid v).log
          = st.log ++ [⟨.toRoomExcept g.roomId sid, .snakeOpponentState v⟩]) := by
  refine ⟨?_, ?_, ?_, ?_, ?_, ?_⟩
  · simp only [playerMove, hg]
  · simp only [playerFinished, hg]
  · intro h
    refine ⟨?_, ?_, ?_⟩
    · simp only [pongPaddleMove, hg, if_neg h]
    · simp only [pongUpdateState, hg, if_neg h]
    · simp only [pongGameOver, hg, if_neg h]
  · intro h
    refine ⟨?_, ?_⟩
    · simp only [snakeUpdateState, hg, if_neg h]
    · simp only [snakeGameOver, hg, if_neg h]
  · intro h
    simp only [pongPaddleMove, hg, if_pos h]
  · intro h
    simp only [snakeUpdateState, hg, if_pos h]

/-- Witness for `relay_gameType_handling` on a concrete pong session: the
maze-specific handlers still relay, and the snake handlers are no-ops. -/
theorem relay_gameType_handling_witness :
    getGame (findMatch (findMatch initialState 1 "A" .pong 7 100) 2 "B" .pong 8 200) 2
        = some (0,
          { roomId := (2, 1)
            mazeSeed := 8
            gameType := .pong
            players := [⟨2, "B"⟩, ⟨1, "A"⟩]
            startTime := 200
            scores := [] }) ∧
      (playerMove (findMatch (findMatch initialState 1 "A" .pong 7 100) 2 "B" .pong 8 200)
          2 42).log
        = (findMatch (findMatch initialState 1 "A" .pong 7 100) 2 "B" .pong 8 200).log
            ++ [⟨.toRoomExcept (2, 1) 2, .opponentMove 42⟩] ∧
      snakeUpdateState (findMatch (findMatch initialState 1 "A" .pong 7 100) 2 "B" .pong 8 200)
          2 9 = findMatch (findMatch initialState 1 "A" .pong 7 100) 2 "B" .pong 8 200 :=
  ⟨rfl,
    (relay_gameType_handling
      (findMatch (findMatch initialState 1 "A" .pong 7 100) 2 "B" .pong 8 200) 2 0
      { roomId := (2, 1)
        mazeSeed := 8
        gameType := .pong
        players := [⟨2, "B"⟩, ⟨1, "A"⟩]
        startTime := 200
        scores := [] } rfl 42 1200 "B" "B" 10).1,
    ((relay_gameType_handling
      (findMatch (findMatch initialState 1 "A" .pong 7 100) 2 "B" .pong 8 200) 2 0
      { roomId := (2, 1)
        mazeSeed := 8
        gameType := .pong
        players := [⟨2, "B"⟩, ⟨1, "A"⟩]
        startTime := 200
        scores := [] } rfl 9 1200 "B" "B" 10).2.2.2.1 (by decide)).1⟩

/-- C8: in a snake session whose two members `a` and `b` each report exactly
one `snake-game-over` score (first `a`, then `b`) with unequal scores, the
first report emits nothing; after the second report exactly one game-over event
is broadcast to the session's room, and its winner field is the username
reported with the strictly greater score
(`scores[0].score > scores[1].score ? scores[0].username : scores[1].username`
over the insertion-ordered reports). -/
theorem snake_score_resolution (st : ServerState) (a b : ConnId) (i : Nat)
    (g : GameInfo) (ua ub : String) (sa sb : Int)
    (hga : getGame st a = some (i, g)) (hgb : getGame st b = some (i, g))
    (hgt : g.gameType = .snake) (hsc : g.scores = []) (hab : a ≠ b)
    (hne : sa ≠ sb) :
    (snakeGameOver st a ua sa).log = st.log ∧
      (snakeGameOver (snakeGameOver st a ua sa) b ub sb).log
        = st.log ++
          [⟨.toRoom g.roomId, .gameOver (if sa > sb then ua else ub) 0⟩] ∧
      ((sa > sb ∧ (if sa > sb then ua else ub) = ua) ∨
        (sb > sa ∧ (if sa > sb then ua else ub) = ub)) := by
  obtain ⟨ha1, ha2⟩ := getGame_eq_some.mp hga
  obtain ⟨hb1, hb2⟩ := getGame_eq_some.mp hgb
  have hilen : i < st.store.length := (List.getElem?_eq_some.mp ha2).1
  have e1 : snakeGameOver st a ua sa
      = { st with store := st.store.set i { g with scores := [(a, ⟨ua, sa⟩)] } } := by
    simp [snakeGameOver, hga, hgt, hsc, setA]
  have hg1 : getGame (snakeGameOver st a ua sa) b
      = some (i, { g with scores := [(a, ⟨ua, sa⟩)] }) := by
    rw [e1]
    exact getGame_eq_some.mpr ⟨hb1, List.getElem?_set_self hilen⟩
  have hba : ¬(a = b) := hab
  set S : ServerState := snakeGameOver st a ua sa with hSdef
  have e2 : snakeGameOver S b ub sb
      = { S with
            store := S.store.set i
              { g with scores := [(a, ⟨ua, sa⟩), (b, ⟨ub, sb⟩)] }
            log := S.log ++
              [⟨.toRoom g.roomId, .gameOver (if sa > sb then ua else ub) 0⟩] } := by
    simp [snakeGameOver, hg1, hgt, setA, hba, List.getD]
  refine ⟨by rw [e1], ?_, ?_⟩
  · rw [e2, e1]
  · by_cases hw : sa > sb
    · exact Or.inl ⟨hw, if_pos hw⟩
    · have : sb > sa := by omega
      exact Or.inr ⟨this, if_neg hw⟩

/-- Witness for `snake_score_resolution`: members 1 ("A", score 120) and
2 ("B", score 90) of a concrete snake session. -/
theorem snake_score_resolution_witness :
    getGame (findMatch (findMatch initialState 1 "A" .snake 7 100) 2 "B" .snake 8 200) 1
        = some (0,
          { roomId := (2, 1)
            mazeSeed := 8
            gameType := .snake
            players := [⟨2, "B"⟩, ⟨1, "A"⟩]
            startTime := 200
            scores := [] }) ∧
      (1 : ConnId) ≠ 2 ∧ (120 : Int) ≠ 90 ∧
      ((snakeGameOver (findMatch (findMatch initialState 1 "A" .snake 7 100) 2 "B" .snake 8 200)
          1 "A" 120).log
        = (findMatch (findMatch initialState 1 "A" .snake 7 100) 2 "B" .snake 8 200).log ∧
      (snakeGameOver (snakeGameOver
          (findMatch (findMatch initialState 1 "A" .snake 7 100) 2 "B" .snake 8 200)
          1 "A" 120) 2 "B" 90).log
        = (findMatch (findMatch initialState 1 "A" .snake 7 100) 2 "B" .snake 8 200).log ++
          [⟨.toRoom (2, 1), .gameOver (if (120 : Int) > 90 then "A" else "B") 0⟩] ∧
      (((120 : Int) > 90 ∧ (if (120 : Int) > 90 then "A" else "B") = "A") ∨
        ((90 : Int) > 120 ∧ (if (120 : Int) > 90 then "A" else "B") = "B"))) :=
  ⟨rfl, by decide, by decide,
    snake_score_resolution
      (findMatch (findMatch initialState 1 "A" .snake 7 100) 2 "B" .snake 8 200) 1 2 0
      { roomId := (2, 1)
        mazeSeed := 8
        gameType := .snake
        players := [⟨2, "B"⟩, ⟨1, "A"⟩]
        startTime := 200
        scores := [] } "A" "B" 120 90 rfl rfl rfl rfl (by decide) (by decide)⟩

theorem getGame_update_rooms_queues (st : ServerState)
    (r : List (RoomId × List ConnId)) (q : Queues) (id : ConnId) :
    getGame { st with rooms := r, queues := q } id = getGame st id := rfl

/-- C9: when a member of an active session disconnects, the session record is
removed from the registry under both members' connection ids, and exactly one
`opponent-disconnected` event is emitted, delivered to the surviving member
only (the `socket.to(room)` addressing excludes the sender, and the transport
has already removed the disconnected socket from the room). -/
theorem disconnect_session_teardown (st : ServerState) (d : ConnId) (i : Nat)
    (g : GameInfo) (p q : PlayerEntry)
    (hg : getGame st d = some (i, g)) (hp : g.players = [p, q])
    (hpq : p.id ≠ q.id) (hd : d = p.id ∨ d = q.id)
    (hroom : roomMembers st.rooms g.roomId = [p.id, q.id]) :
    lookupA (disconnect st d).activeGames p.id = none ∧
      lookupA (disconnect st d).activeGames q.id = none ∧
      (disconnect st d).log
        = st.log ++ [⟨.toRoomExcept g.roomId d, .opponentDisconnected⟩] ∧
      deliveredTo (disconnect st d).rooms
          ⟨.toRoomExcept g.roomId d, .opponentDisconnected⟩
        = [if d = p.id then q.id else p.id] ∧
      d ∉ deliveredTo (disconnect st d).rooms
          ⟨.toRoomExcept g.roomId d, .opponentDisconnected⟩ := by
  have hstep : disconnect st d
      = { st with
            rooms := leaveAllRooms st.rooms d
            queues := ⟨removeFirst st.queues.maze d, removeFirst st.queues.snake d,
              removeFirst st.queues.pong d⟩
            activeGames := g.players.foldl (fun m e => delA m e.id) st.activeGames
            log := st.log ++ [⟨.toRoomExcept g.roomId d, .opponentDisconnected⟩] } := by
    simp only [disconnect, getGame_update_rooms_queues, hg]
  have hqp : q.id ≠ p.id := Ne.symm hpq
  rw [hstep, hp]
  refine ⟨?_, ?_, rfl, ?_, ?_⟩
  · simp [List.foldl, lookupA_delA, hqp]
  · simp [List.foldl, lookupA_delA]
  · rcases hd with hd | hd
    · subst hd
      simp [deliveredTo, roomMembers_leaveAll, hroom, hqp, hpq]
    · subst hd
      simp [deliveredTo, roomMembers_leaveAll, hroom, hpq, hqp]
  · rcases hd with hd | hd
    · subst hd
      simp [deliveredTo, roomMembers_leaveAll, hroom, hqp, hpq]
    · subst hd
      simp [deliveredTo, roomMembers_leaveAll, hroom, hpq, hqp]

/-- Witness for `disconnect_session_teardown`: member 1 of the concrete maze
session of connections 1 and 2 disconnects; only member 2 is notified. -/
theorem disconnect_session_teardown_witness :
    getGame (findMatch (findMatch initialState 1 "A" .maze 7 100) 2 "B" .maze 8 200) 1
        = some (0,
          { roomId := (2, 1)
            mazeSeed := 8
            gameType := .maze
            players := [⟨2, "B"⟩, ⟨1, "A"⟩]
            startTime := 200
            scores := [] }) ∧
      (2 : ConnId) ≠ 1 ∧
      ((1 : ConnId) = 2 ∨ (1 : ConnId) = 1) ∧
      roomMembers (findMatch (findMatch initialState 1 "A" .maze 7 100) 2 "B" .maze 8 200).rooms
          (2, 1) = [2, 1] ∧
      (lookupA (disconnect
          (findMatch (findMatch initialState 1 "A" .maze 7 100) 2 "B" .maze 8 200) 1).activeGames
            2 = none ∧
        lookupA (disconnect
          (findMatch (findMatch initialState 1 "A" .maze 7 100) 2 "B" .maze 8 200) 1).activeGames
            1 = none ∧
        (disconnect
          (findMatch (findMatch initialState 1 "A" .maze 7 100) 2 "B" .maze 8 200) 1).log
          = (findMatch (findMatch initialState 1 "A" .maze 7 100) 2 "B" .maze 8 200).log
              ++ [⟨.toRoomExcept (2, 1) 1, .opponentDisconnected⟩] ∧
        deliveredTo (disconnect
            (findMatch (findMatch initialState 1 "A" .maze 7 100) 2 "B" .maze 8 200) 1).rooms
            ⟨.toRoomExcept (2, 1) 1, .opponentDisconnected⟩
          = [if (1 : ConnId) = 2 then 1 else 2] ∧
        (1 : ConnId) ∉ deliveredTo (disconnect
            (findMatch (findMatch initialState 1 "A" .maze 7 100) 2 "B" .maze 8 200) 1).rooms
            ⟨.toRoomExcept (2, 1) 1, .opponentDisconnected⟩) :=
  ⟨rfl, by decide, by decide, rfl,
    disconnect_session_teardown
      (findMatch (findMatch initialState 1 "A" .maze 7 100) 2 "B" .maze 8 200) 1 0
      { roomId := (2, 1)
        mazeSeed := 8
        gameType := .maze
        players := [⟨2, "B"⟩, ⟨1, "A"⟩]
        startTime := 200
        scores := [] } ⟨2, "B"⟩ ⟨1, "A"⟩ rfl rfl (by decide) (by decide) rfl⟩

/-- C7 (counterexample): the find-match handler has no guard against a request
from a connection that is already queued or already in a session.  Connections
1 and 2 pair (session index 0); connection 3 queues; a second find-match from
the in-session connection 1 then pairs 1 with 3 and overwrites 1's registry
entry (now index 1), contradicting "leaves that connection's existing session
record unchanged".  Likewise, a connection that requests two game types in a
row from the queue sits in two queues at once, contradicting "appears in at
most one matchmaking queue". -/
theorem queue_invariant_counterexample :
    lookupA (findMatch (findMatch (findMatch initialState 1 "A" .maze 7 100)
        2 "B" .maze 8 200) 3 "C" .maze 9 300).activeGames 1 = some 0 ∧
      lookupA (findMatch (findMatch (findMatch (findMatch initialState 1 "A" .maze 7 100)
        2 "B" .maze 8 200) 3 "C" .maze 9 300) 1 "A" .maze 10 400).activeGames 1 = some 1 ∧
      (findMatch (findMatch initialState 1 "A" .maze 7 100) 1 "A" .snake 8 200).queues.maze
        = [1] ∧
      (findMatch (findMatch initialState 1 "A" .maze 7 100) 1 "A" .snake 8 200).queues.snake
        = [1] := by
  refine ⟨rfl, rfl, rfl, rfl⟩

/-- Number of occurrences of a connection id in one queue. -/
def countId (l : List ConnId) (x : ConnId) : Nat :=
  match l with
  | [] => 0
  | y :: rest => (if y = x then 1 else 0) + countId rest x

/-- Total number of queue slots holding a connection id, across all three
matchmaking queues. -/
def queueCount (q : Queues) (id : ConnId) : Nat :=
  countId q.maze id + countId q.snake id + countId q.pong id

/-- The §3 invariant: a connection appears in at most one queue slot overall,
and a connection with an active session appears in no queue. -/
def QueueInv (st : ServerState) : Prop :=
  ∀ id : ConnId, queueCount st.queues id ≤ 1 ∧
    (lookupA st.activeGames id ≠ none → queueCount st.queues id = 0)

/-- Traces of the event loop in which no connection issues find-match while it
is still queued or still has an active session (the discipline the well-behaved
client follows; the handler itself does not enforce it — see the
counterexample). -/
inductive Reach : ServerState → Prop where
  | init : Reach initialState
  | findMatchStep {st : ServerState} (sid : ConnId) (un : String) (gt : GameType)
      (sd nw : Nat) (hq : queueCount st.queues sid = 0)
      (ha : lookupA st.activeGames sid = none) (h : Reach st) :
      Reach (findMatch st sid un gt sd nw)
  | playerMoveStep {st : ServerState} (sid : ConnId) (v : Val) (h : Reach st) :
      Reach (playerMove st sid v)
  | playerFinishedStep {st : ServerState} (sid : ConnId) (nw : Nat) (h : Reach st) :
      Reach (playerFinished st sid nw)
  | pongPaddleMoveStep {st : ServerState} (sid : ConnId) (v : Val) (h : Reach st) :
      Reach (pongPaddleMove st sid v)
  | pongUpdateStateStep {st : ServerState} (sid : ConnId) (v : Val) (h : Reach st) :
      Reach (pongUpdateState st sid v)
  | pongGameOverStep {st : ServerState} (sid : ConnId) (w : String) (h : Reach st) :
      Reach (pongGameOver st sid w)
  | snakeUpdateStateStep {st : ServerState} (sid : ConnId) (v : Val) (h : Reach st) :
      Reach (snakeUpdateState st sid v)
  | snakeGameOverStep {st : ServerState} (sid : ConnId) (un : String) (sc : Int)
      (h : Reach st) : Reach (snakeGameOver st sid un sc)
  | disconnectStep {st : ServerState} (did : ConnId) (h : Reach st) :
      Reach (disconnect st did)

theorem countId_le_queueCount (q : Queues) (gt : GameType) (id : ConnId) :
    countId (q.get gt) id ≤ queueCount q id := by
  cases gt <;> simp [queueCount, Queues.get] <;> omega

theorem queueCount_set (q : Queues) (gt : GameType) (l : List ConnId) (id : ConnId) :
    queueCount (q.set gt l) id + countId (q.get gt) id
      = queueCount q id + countId l id := by
  cases gt <;> simp [queueCount, Queues.set, Queues.get] <;> ring

theorem countId_removeFirst_le (l : List ConnId) (d x : ConnId) :
    countId (removeFirst l d) x ≤ countId l x := by
  induction l with
  | nil => exact Nat.le_refl _
  | cons y rest ih =>
    by_cases h : y = d
    · simp only [removeFirst, if_pos h, countId]
      omega
    · simp only [removeFirst, if_neg h, countId]
      omega

theorem lookupA_foldl_delA {α : Type} (ps : List PlayerEntry)
    (m : List (ConnId × α)) (i : ConnId)
    (h : lookupA (ps.foldl (fun acc e => delA acc e.id) m) i ≠ none) :
    lookupA m i ≠ none := by
  induction ps generalizing m with
  | nil => exact h
  | cons p rest ih =>
    have h2 := ih (delA m p.id) h
    rw [lookupA_delA] at h2
    by_cases hc : p.id = i
    · rw [if_pos hc] at h2
      exact absurd rfl h2
    · rw [if_neg hc] at h2
      exact h2

theorem queueInv_of_eq {st st' : ServerState} (hq : st'.queues = st.queues)
    (ha : st'.activeGames = st.activeGames) (h : QueueInv st) : QueueInv st' := by
  intro id
  rw [hq, ha]
  exact h id

theorem playerMove_preserves (st : ServerState) (sid : ConnId) (v : Val) :
    (playerMove st sid v).queues = st.queues ∧
      (playerMove st sid v).activeGames = st.activeGames := by
  cases hgg : getGame st sid with
  | none => simp [playerMove, hgg]
  | some p =>
    rcases p with ⟨i, g⟩
    simp [playerMove, hgg]

theorem playerFinished_preserves (st : ServerState) (sid : ConnId) (nw : Nat) :
    (playerFinished st sid nw).queues = st.queues ∧
      (playerFinished st sid nw).activeGames = st.activeGames := by
  cases hgg : getGame st sid with
  | none => simp [playerFinished, hgg]
  | some p =>
    rcases p with ⟨i, g⟩
    simp [playerFinished, hgg]

theorem pongPaddleMove_preserves (st : ServerState) (sid : ConnId) (v : Val) :
    (pongPaddleMove st sid v).queues = st.queues ∧
      (pongPaddleMove st sid v).activeGames = st.activeGames := by
  cases hgg : getGame st sid with
  | none => simp [pongPaddleMove, hgg]
  | some p =>
    rcases p with ⟨i, g⟩
    simp only [pongPaddleMove, hgg]
    split <;> exact ⟨rfl, rfl⟩

theorem pongUpdateState_preserves (st : ServerState) (sid : ConnId) (v : Val) :
    (pongUpdateState st sid v).queues = st.queues ∧
      (pongUpdateState st sid v).activeGames = st.activeGames := by
  cases hgg : getGame st sid with
  | none => simp [pongUpdateState, hgg]
  | some p =>
    rcases p with ⟨i, g⟩
    simp only [pongUpdateState, hgg]
    split <;> exact ⟨rfl, rfl⟩

theorem pongGameOver_preserves (st : ServerState) (sid : ConnId) (w : String) :
    (pongGameOver st sid w).queues = st.queues ∧
      (pongGameOver st sid w).activeGames = st.activeGames := by
  cases hgg : getGame st sid with
  | none => simp [pongGameOver, hgg]
  | some p =>
    rcases p with ⟨i, g⟩
    simp only [pongGameOver, hgg]
    split <;> exact ⟨rfl, rfl⟩

theorem snakeUpdateState_preserves (st : ServerState) (sid : ConnId) (v : Val) :
    (snakeUpdateState st sid v).queues = st.queues ∧
      (snakeUpdateState st sid v).activeGames = st.activeGames := by
  cases hgg : getGame st sid with
  | none => simp [snakeUpdateState, hgg]
  | some p =>
    rcases p with ⟨i, g⟩
    simp only [snakeUpdateState, hgg]
    split <;> exact ⟨rfl, rfl⟩

theorem snakeGameOver_preserves (st : ServerState) (sid : ConnId) (un : String)
    (sc : Int) :
    (snakeGameOver st sid un sc).queues = st.queues ∧
      (snakeGameOver st sid un sc).activeGames = st.activeGames := by
  cases hgg : getGame st sid with
  | none => simp [snakeGameOver, hgg]
  | some p =>
    rcases p with ⟨i, g⟩
    simp only [snakeGameOver, hgg]
    split
    · split <;> exact ⟨rfl, rfl⟩
    · exact ⟨rfl, rfl⟩

theorem findMatch_empty_proj (st : ServerState) (sid : ConnId) (un : String)
    (gt : GameType) (sd nw : Nat) (h : st.queues.get gt = []) :
    (findMatch st sid un gt sd nw).queues = st.queues.set gt [sid] ∧
      (findMatch st sid un gt sd nw).activeGames = st.activeGames := by
  simp [findMatch, h]

theorem findMatch_pair_proj (st : ServerState) (sid : ConnId) (un : String)
    (gt : GameType) (sd nw : Nat) (opp : ConnId) (rest : List ConnId)
    (h : st.queues.get gt = opp :: rest) :
    (findMatch st sid un gt sd nw).queues = st.queues.set gt rest ∧
      (findMatch st sid un gt sd nw).activeGames
        = setA (setA st.activeGames sid st.store.length) opp st.store.length := by
  simp [findMatch, h]

theorem disconnect_proj (st : ServerState) (did : ConnId) :
    (disconnect st did).queues
        = ⟨removeFirst st.queues.maze did, removeFirst st.queues.snake did,
            removeFirst st.queues.pong did⟩ ∧
      ((disconnect st did).activeGames = st.activeGames ∨
        ∃ g : GameInfo, (disconnect st did).activeGames
          = g.players.foldl (fun m e => delA m e.id) st.activeGames) := by
  cases hgg : getGame st did with
  | none =>
    have hgg2 := hgg
    rw [← getGame_update_rooms_queues st (leaveAllRooms st.rooms did)
      ⟨removeFirst st.queues.maze did, removeFirst st.queues.snake did,
        removeFirst st.queues.pong did⟩ did] at hgg2
    simp only [disconnect, hgg2]
    exact ⟨trivial, Or.inl trivial⟩
  | some p =>
    rcases p with ⟨i, g⟩
    have hgg2 := hgg
    rw [← getGame_update_rooms_queues st (leaveAllRooms st.rooms did)
      ⟨removeFirst st.queues.maze did, removeFirst st.queues.snake did,
        removeFirst st.queues.pong did⟩ did] at hgg2
    simp only [disconnect, hgg2]
    exact ⟨trivial, Or.inr ⟨g, rfl⟩⟩

theorem queueInv_findMatch {st : ServerState} (sid : ConnId) (un : String)
    (gt : GameType) (sd nw : Nat) (hq0 : queueCount st.queues sid = 0)
    (ha0 : lookupA st.activeGames sid = none) (hinv : QueueInv st) :
    QueueInv (findMatch st sid un gt sd nw) := by
  cases hq : st.queues.get gt with
  | nil =>
    obtain ⟨hqe, hae⟩ := findMatch_empty_proj st sid un gt sd nw hq
    intro id
    obtain ⟨hle, hact⟩ := hinv id
    rw [hqe, hae]
    have hset := queueCount_set st.queues gt [sid] id
    rw [hq] at hset
    by_cases hid : sid = id
    · subst hid
      have : countId [sid] sid = 1 := by simp [countId]
      constructor
      · omega
      · intro hcon
        exact absurd ha0 hcon
    · have : countId [sid] id = 0 := by simp [countId, hid]
      constructor
      · omega
      · intro hcon
        have := hact hcon
        omega
  | cons opp rest =>
    obtain ⟨hqe, hae⟩ := findMatch_pair_proj st sid un gt sd nw opp rest hq
    intro id
    obtain ⟨hle, hact⟩ := hinv id
    rw [hqe, hae]
    have hset := queueCount_set st.queues gt rest id
    rw [hq] at hset
    have hcons : countId (opp :: rest) id
        = (if opp = id then 1 else 0) + countId rest id := rfl
    rw [hcons] at hset
    constructor
    · by_cases hio : opp = id
      · rw [if_pos hio] at hset
        omega
      · rw [if_neg hio] at hset
        omega
    · intro hcon
      rw [lookupA_setA] at hcon
      by_cases hio : opp = id
      · -- the popped opponent: its single queue slot was the popped head
        rw [if_pos hio] at hset
        have hhead : countId (st.queues.get gt) id ≥ 1 := by
          rw [hq]
          show (if opp = id then 1 else 0) + countId rest id ≥ 1
          rw [if_pos hio]
          omega
        have hcomp := countId_le_queueCount st.queues gt id
        omega
      · rw [if_neg hio, lookupA_setA] at hcon
        rw [if_neg hio] at hset
        by_cases his : sid = id
        · subst his
          omega
        · rw [if_neg his] at hcon
          have := hact hcon
          omega

theorem queueCount_removeFirst_le (q : Queues) (did id : ConnId) :
    queueCount
        ⟨removeFirst q.maze did, removeFirst q.snake did, removeFirst q.pong did⟩ id
      ≤ queueCount q id := by
  have h1 := countId_removeFirst_le q.maze did id
  have h2 := countId_removeFirst_le q.snake did id
  have h3 := countId_removeFirst_le q.pong did id
  simp only [queueCount]
  omega

theorem queueInv_disconnect {st : ServerState} (did : ConnId)
    (hinv : QueueInv st) : QueueInv (disconnect st did) := by
  obtain ⟨hqe, hae⟩ := disconnect_proj st did
  intro id
  obtain ⟨hle, hact⟩ := hinv id
  have hcnt : queueCount (disconnect st did).queues id ≤ queueCount st.queues id := by
    rw [hqe]
    exact queueCount_removeFirst_le st.queues did id
  constructor
  · omega
  · intro hcon
    have hold : lookupA st.activeGames id ≠ none := by
      rcases hae with hae | ⟨g, hae⟩
      · rw [hae] at hcon
        exact hcon
      · rw [hae] at hcon
        exact lookupA_foldl_delA g.players st.activeGames id hcon
    have := hact hold
    omega

/-- C7 (amended): in every state reachable by find-match, gameplay and
disconnect events in which no connection issues find-match while it is still
queued or still registered in a session, each connection id occupies at most
one queue slot across all matchmaking queues, and a connection registered in
the active-session registry occupies none.  The handler itself does not guard
against duplicate find-match: without the trace restriction the invariant
fails, and a find-match from an in-session connection can overwrite its
existing session record (see the counterexample). -/
theorem reach_queue_invariant (st : ServerState) (h : Reach st) : QueueInv st := by
  induction h with
  | init =>
    intro id
    constructor
    · simp [initialState, queueCount, countId]
    · intro hcon
      exact absurd rfl hcon
  | findMatchStep sid un gt sd nw hq ha _ ih => exact queueInv_findMatch sid un gt sd nw hq ha ih
  | playerMoveStep sid v _ ih =>
    exact queueInv_of_eq (playerMove_preserves _ sid v).1 (playerMove_preserves _ sid v).2 ih
  | playerFinishedStep sid nw _ ih =>
    exact queueInv_of_eq (playerFinished_preserves _ sid nw).1
      (playerFinished_preserves _ sid nw).2 ih
  | pongPaddleMoveStep sid v _ ih =>
    exact queueInv_of_eq (pongPaddleMove_preserves _ sid v).1
      (pongPaddleMove_preserves _ sid v).2 ih
  | pongUpdateStateStep sid v _ ih =>
    exact queueInv_of_eq (pongUpdateState_preserves _ sid v).1
      (pongUpdateState_preserves _ sid v).2 ih
  | pongGameOverStep sid w _ ih =>
    exact queueInv_of_eq (pongGameOver_preserves _ sid w).1
      (pongGameOver_preserves _ sid w).2 ih
  | snakeUpdateStateStep sid v _ ih =>
    exact queueInv_of_eq (snakeUpdateState_preserves _ sid v).1
      (snakeUpdateState_preserves _ sid v).2 ih
  | snakeGameOverStep sid un sc _ ih =>
    exact queueInv_of_eq (snakeGameOver_preserves _ sid un sc).1
      (snakeGameOver_preserves _ sid un sc).2 ih
  | disconnectStep did _ ih => exact queueInv_disconnect did ih

/-- Witness for `reach_queue_invariant` on the trace: 1 requests maze,
2 requests maze (pairing), 3 requests snake, 1 disconnects. -/
theorem reach_queue_invariant_witness :
    Reach (disconnect (findMatch (findMatch (findMatch initialState 1 "A" .maze 7 100)
        2 "B" .maze 8 200) 3 "C" .snake 9 300) 1) ∧
      QueueInv (disconnect (findMatch (findMatch (findMatch initialState 1 "A" .maze 7 100)
        2 "B" .maze 8 200) 3 "C" .snake 9 300) 1) := by
  have h1 : Reach (findMatch initialState 1 "A" .maze 7 100) :=
    Reach.findMatchStep 1 "A" .maze 7 100 (by decide) rfl Reach.init
  have h2 : Reach (findMatch (findMatch initialState 1 "A" .maze 7 100) 2 "B" .maze 8 200) :=
    Reach.findMatchStep 2 "B" .maze 8 200 (by decide) rfl h1
  have h3 : Reach (findMatch (findMatch (findMatch initialState 1 "A" .maze 7 100)
      2 "B" .maze 8 200) 3 "C" .snake 9 300) :=
    Reach.findMatchStep 3 "C" .snake 9 300 (by decide) rfl h2
  have h4 : Reach (disconnect (findMatch (findMatch (findMatch initialState 1 "A" .maze 7 100)
      2 "B" .maze 8 200) 3 "C" .snake 9 300) 1) := Reach.disconnectStep 1 h3
  exact ⟨h4, reach_queue_invariant _ h4⟩

end Server
